import Mathlib

/-!
# Verification development for the SQL-backed metadata key-value store

The definitions below embed `engine/pkg/meta/internal/sqlkv/sql_impl.go`:
the job-scoped client (`doPut`, `doGet`, `doDelete`) and the transaction
(`Do`, `Commit`).  The relational backend is an explicit value: the table is
the list of its rows in storage order, a `Where` clause is a filter over that
list, and a backend transaction works on a copy that replaces the table only
when the transaction commits.
-/

deriving instance DecidableEq for Except

namespace Sqlkv

/-! ## Data model -/

/-- One raw byte of a key or a value. -/
abbrev Byte := Fin 256

/-- Keys and values are opaque byte strings. -/
abbrev Bytes := List Byte

/-- Job identifier, the tenant discriminator (`metaModel.JobID`, a Go string). -/
abbrev JobID := String

/-- The pair `metaModel.KeyValue`. -/
structure KeyValue where
  Key : Bytes
  Value : Bytes
  deriving DecidableEq, Repr

/-- The persisted row `sqlkvModel.MetaKV`: a key-value pair and its job. -/
structure MetaKV where
  JobID : JobID
  KeyValue : KeyValue
  deriving DecidableEq, Repr

/-- The table: its rows in storage order.  A row keeps its place when it is
updated and a new row goes to the end. -/
abbrev Store := List MetaKV

/-- Request-scoped context; only whether it is already cancelled matters. -/
structure Context where
  cancelled : Bool
  deriving DecidableEq, Repr

/-- Raw errors of the backend (gorm and the SQL driver). -/
inductive RawErr where
  | recordNotFound
  | contextCanceled
  | optionConflict
  | backend (code : Nat)
  deriving DecidableEq, Repr

/-- Modelled from the spec: the error kinds of section 7 (`cerrors.ErrMeta...`),
whose declarations are outside the given sources.  `Wrap` keeps the wrapped
raw error, when there is one. -/
inductive MetaErr where
  | ParamsInvalid
  | OptionInvalid (wrapped : Option RawErr)
  | NotFound
  | OpFail (wrapped : Option RawErr)
  | CommittedTxn
  | NestedTxn
  deriving DecidableEq, Repr

/-- Modelled from the spec: the package-private `sqlError` (declared outside
the given sources): the error shown to the caller and the backend cause. -/
structure sqlError where
  displayed : MetaErr
  cause : Option RawErr
  deriving DecidableEq, Repr

/-- Modelled from the spec: `sqlErrorFromOpFail` (declared outside the given
sources) turns a backend error into an `OpFail` error that wraps it.  The
argument is `none` for a nil error value. -/
def sqlErrorFromOpFail (err : Option RawErr) : sqlError :=
  { displayed := MetaErr.OpFail err, cause := err }

/-- A Go `error` value as seen by `Commit`: either a `*sqlError` or a raw
backend error. -/
inductive GoError where
  | sql (e : sqlError)
  | raw (e : RawErr)
  deriving DecidableEq, Repr

/-! ## Operations (`metaModel.Op`) -/

/-- Modelled from the spec: the operation kind.  `tInvalid` is a kind outside
get, put, delete and transaction. -/
inductive opType where
  | tInvalid
  | tGet
  | tPut
  | tDelete
  | tTxn
  deriving DecidableEq, Repr

/-- Modelled from the spec: `metaModel.Op` (declared outside the given
sources): kind, key, value payload and the modifiers.  Each modifier has its
own field so that an operation carrying two of them can be written down.  The
operations nested in an operation of kind transaction are left out: `Commit`
only looks at the kind. -/
structure Op where
  T : opType
  key : Bytes
  val : Bytes
  rangeEnd : Option Bytes
  isOptsWithPrefix : Bool
  isOptsWithFromKey : Bool
  deriving DecidableEq, Repr

/-- Modelled from the spec: the options recognised by Get and Delete. -/
inductive OpOption where
  | WithRange (endKey : Bytes)
  | WithPrefix
  | WithFromKey
  deriving DecidableEq, Repr

/-- Modelled from the spec: applying one option sets its modifier. -/
def OpOption.apply (op : Op) : OpOption → Op
  | OpOption.WithRange e => { op with rangeEnd := some e }
  | OpOption.WithPrefix => { op with isOptsWithPrefix := true }
  | OpOption.WithFromKey => { op with isOptsWithFromKey := true }

/-- Modelled from the spec: `Op.ApplyOpts`, the options applied in order. -/
def Op.ApplyOpts (op : Op) (opts : List OpOption) : Op :=
  opts.foldl OpOption.apply op

/-- Modelled from the spec: `metaModel.OpGet(key, opts...)`. -/
def OpGet (key : Bytes) (opts : List OpOption) : Op :=
  Op.ApplyOpts
    { T := opType.tGet, key := key, val := [], rangeEnd := none,
      isOptsWithPrefix := false, isOptsWithFromKey := false } opts

/-- Modelled from the spec: `metaModel.OpPut(key, val)`; a put takes no option. -/
def OpPut (key val : Bytes) : Op :=
  { T := opType.tPut, key := key, val := val, rangeEnd := none,
    isOptsWithPrefix := false, isOptsWithFromKey := false }

/-- Modelled from the spec: `metaModel.OpDelete(key, opts...)`. -/
def OpDelete (key : Bytes) (opts : List OpOption) : Op :=
  Op.ApplyOpts
    { T := opType.tDelete, key := key, val := [], rangeEnd := none,
      isOptsWithPrefix := false, isOptsWithFromKey := false } opts

/-- Modelled from the spec: `Op.IsGet`, the kind is get. -/
def Op.IsGet (op : Op) : Bool := op.T == opType.tGet

/-- Modelled from the spec: `Op.IsPut`, the kind is put. -/
def Op.IsPut (op : Op) : Bool := op.T == opType.tPut

/-- Modelled from the spec: `Op.IsDelete`, the kind is delete. -/
def Op.IsDelete (op : Op) : Bool := op.T == opType.tDelete

/-- Modelled from the spec: `Op.IsTxn`, the kind is transaction. -/
def Op.IsTxn (op : Op) : Bool := op.T == opType.tTxn

/-- Modelled from the spec: `Op.KeyBytes`, the target key. -/
def Op.KeyBytes (op : Op) : Bytes := op.key

/-- Modelled from the spec: `Op.ValueBytes`, the value payload of a put. -/
def Op.ValueBytes (op : Op) : Bytes := op.val

/-- Modelled from the spec: `Op.RangeBytes`, the end of the half-open range. -/
def Op.RangeBytes (op : Op) : Bytes := op.rangeEnd.getD []

/-- Modelled from the spec: `Op.IsOptsWithRange`, the range modifier is active. -/
def Op.IsOptsWithRange (op : Op) : Bool := op.rangeEnd.isSome

/-- Modelled from the spec: `Op.IsOptsWithPrefix`, the prefix modifier is active. -/
def Op.IsOptsWithPrefix (op : Op) : Bool := op.isOptsWithPrefix

/-- Modelled from the spec: `Op.IsOptsWithFromKey`, the from-key modifier is
active. -/
def Op.IsOptsWithFromKey (op : Op) : Bool := op.isOptsWithFromKey

/-- Number of modifiers active on an operation. -/
def Op.modifierCount (op : Op) : Nat :=
  (if op.IsOptsWithRange then 1 else 0) + (if op.IsOptsWithPrefix then 1 else 0)
    + (if op.IsOptsWithFromKey then 1 else 0)

/-- Modelled from the spec: `Op.CheckValidOp` (declared outside the given
sources).  At most one modifier is active per operation, and a put never
accepts a modifier; anything else is reported as an option conflict. -/
def Op.CheckValidOp (op : Op) : Option RawErr :=
  if 1 < op.modifierCount then some RawErr.optionConflict
  else if op.IsPut && 0 < op.modifierCount then some RawErr.optionConflict
  else none

/-! ## The backend: comparison and pattern operators of the table -/

/-- Bytewise lexicographic `<` on binary strings, the backend's comparison of
the key column. -/
def bytesLt : Bytes → Bytes → Bool
  | [], [] => false
  | [], _ :: _ => true
  | _ :: _, [] => false
  | a :: as, b :: bs => decide (a < b) || (decide (a = b) && bytesLt as bs)

/-- The backend's `x >= y` on binary strings. -/
def bytesGe (x y : Bytes) : Bool := !bytesLt x y

/-- The pattern metacharacter `%`: any run of bytes. -/
def pctByte : Byte := 37

/-- The pattern metacharacter `_`: any single byte. -/
def underscoreByte : Byte := 95

/-- The pattern escape character, the backslash. -/
def escapeByte : Byte := 92

/-- The backend's `subject LIKE pattern` on binary strings: `%` matches any
run of bytes, `_` any single byte, a backslash makes the next pattern byte
literal, every other byte matches itself. -/
def likeMatch : Bytes → Bytes → Bool
  | [], s => s.isEmpty
  | c :: p, s =>
    if c = pctByte then s.tails.any (fun t => likeMatch p t)
    else if c = underscoreByte then
      match s with
      | [] => false
      | _ :: t => likeMatch p t
    else if c = escapeByte then
      match s with
      | [] => false
      | d :: t =>
        match p with
        | [] => decide (d = escapeByte) && t.isEmpty
        | e :: q => decide (e = d) && likeMatch q t
    else
      match s with
      | [] => false
      | d :: t => decide (c = d) && likeMatch p t
termination_by structural p => p

/-! ## The backend: statements -/

/-- The query `Find`: the rows selected by the `Where` clauses, in storage
order (the statement carries no `ORDER BY`).  A cancelled context makes the
call fail before anything is read. -/
def dbFind (ctx : Context) (selected : List MetaKV) : Except RawErr (List MetaKV) :=
  if ctx.cancelled then Except.error RawErr.contextCanceled else Except.ok selected

/-- The query `First`: the first selected row, or the record-not-found error
when no row is selected. -/
def dbFirst (ctx : Context) (selected : List MetaKV) : Except RawErr MetaKV :=
  if ctx.cancelled then Except.error RawErr.contextCanceled
  else match selected.head? with
    | none => Except.error RawErr.recordNotFound
    | some r => Except.ok r

/-- The statement `Delete` under a `Where` condition: the rows that satisfy
the condition are removed, the others keep their order. -/
def dbDelete (ctx : Context) (db : Store) (cond : MetaKV → Bool) : Except RawErr Store :=
  if ctx.cancelled then Except.error RawErr.contextCanceled
  else Except.ok (db.filter (fun r => !cond r))

/-- Insert-or-update on the identity `(job_id, key)`: the row that already has
this identity is overwritten in place, otherwise the row is added. -/
def upsert : Store → MetaKV → Store
  | [], row => [row]
  | r :: rest, row =>
    if r.JobID = row.JobID ∧ r.KeyValue.Key = row.KeyValue.Key then row :: rest
    else r :: upsert rest row

/-- The statement `Create` with `OnConflict{UpdateAll: true}`. -/
def dbCreateOnConflictUpdateAll (ctx : Context) (db : Store) (row : MetaKV) :
    Except RawErr Store :=
  if ctx.cancelled then Except.error RawErr.contextCanceled
  else Except.ok (upsert db row)

/-- Failures the backend may inject when a transaction begins or commits. -/
structure Faults where
  beginErr : Option RawErr
  commitErr : Option RawErr
  deriving DecidableEq, Repr

/-- A backend without injected failures. -/
def Faults.none : Faults := { beginErr := Option.none, commitErr := Option.none }

/-- The call `db.Transaction(fc)`: begin, run `fc` on the transaction handle,
roll back when `fc` returns an error, commit otherwise.  The table changes
only when the commit goes through. -/
def Transaction {α : Type} (flt : Faults) (db : Store)
    (fc : Store → Except GoError (Store × α)) : Store × Except GoError α :=
  match flt.beginErr with
  | some e => (db, Except.error (GoError.raw e))
  | Option.none =>
    match fc db with
    | Except.error e => (db, Except.error e)
    | Except.ok (tx, a) =>
      match flt.commitErr with
      | some e => (db, Except.error (GoError.raw e))
      | Option.none => (tx, Except.ok a)

/-! ## The client (`sqlKVClientImpl`) -/

/-- The client; the table handle is passed to each call as the store. -/
structure sqlKVClientImpl where
  jobID : JobID
  deriving DecidableEq, Repr

/-- The response `metaModel.PutResponse` (a header only). -/
structure PutResponse where
  deriving DecidableEq, Repr

/-- The response `metaModel.GetResponse`. -/
structure GetResponse where
  Kvs : List KeyValue
  deriving DecidableEq, Repr

/-- The response `metaModel.DeleteResponse` (a header only). -/
structure DeleteResponse where
  deriving DecidableEq, Repr

/-- Method `sqlKVClientImpl.doPut`. -/
def sqlKVClientImpl.doPut (c : sqlKVClientImpl) (ctx : Context) (db : Store) (op : Op) :
    Except sqlError (Store × PutResponse) :=
  match dbCreateOnConflictUpdateAll ctx db
      { JobID := c.jobID, KeyValue := { Key := op.KeyBytes, Value := op.ValueBytes } } with
  | Except.error err => Except.error (sqlErrorFromOpFail (some err))
  | Except.ok db1 => Except.ok (db1, {})

/-- Method `sqlKVClientImpl.Put`. -/
def sqlKVClientImpl.Put (c : sqlKVClientImpl) (ctx : Context) (db : Store) (key val : Bytes) :
    Except sqlError (Store × PutResponse) :=
  c.doPut ctx db (OpPut key val)

/-- Method `sqlKVClientImpl.doGet`.  The condition `key like ?%` is read as the
pattern made of the key bytes followed by `%`; no byte of the key is escaped. -/
def sqlKVClientImpl.doGet (c : sqlKVClientImpl) (ctx : Context) (db : Store) (op : Op) :
    Except sqlError GetResponse :=
  match op.CheckValidOp with
  | some err => Except.error { displayed := MetaErr.OptionInvalid (some err), cause := none }
  | none =>
    let key := op.KeyBytes
    let db := db.filter (fun r => decide (r.JobID = c.jobID))
    if op.IsOptsWithRange then
      match dbFind ctx (db.filter (fun r =>
          bytesGe r.KeyValue.Key key && bytesLt r.KeyValue.Key op.RangeBytes)) with
      | Except.error err => Except.error (sqlErrorFromOpFail (some err))
      | Except.ok metaKvs => Except.ok { Kvs := metaKvs.map (fun metaKv =>
          { Key := metaKv.KeyValue.Key, Value := metaKv.KeyValue.Value }) }
    else if op.IsOptsWithPrefix then
      match dbFind ctx (db.filter (fun r => likeMatch (key ++ [pctByte]) r.KeyValue.Key)) with
      | Except.error err => Except.error (sqlErrorFromOpFail (some err))
      | Except.ok metaKvs => Except.ok { Kvs := metaKvs.map (fun metaKv =>
          { Key := metaKv.KeyValue.Key, Value := metaKv.KeyValue.Value }) }
    else if op.IsOptsWithFromKey then
      match dbFind ctx (db.filter (fun r => bytesGe r.KeyValue.Key key)) with
      | Except.error err => Except.error (sqlErrorFromOpFail (some err))
      | Except.ok metaKvs => Except.ok { Kvs := metaKvs.map (fun metaKv =>
          { Key := metaKv.KeyValue.Key, Value := metaKv.KeyValue.Value }) }
    else
      match dbFirst ctx (db.filter (fun r => decide (r.KeyValue.Key = key))) with
      | Except.error err => Except.error (sqlErrorFromOpFail (some err))
      | Except.ok metaKv => Except.ok { Kvs :=
          [{ Key := metaKv.KeyValue.Key, Value := metaKv.KeyValue.Value }] }

/-- Method `sqlKVClientImpl.Get`. -/
def sqlKVClientImpl.Get (c : sqlKVClientImpl) (ctx : Context) (db : Store) (key : Bytes)
    (opts : List OpOption) : Except sqlError GetResponse :=
  c.doGet ctx db (OpGet key opts)

/-- Method `sqlKVClientImpl.doDelete`, with the same conditions as `doGet`. -/
def sqlKVClientImpl.doDelete (c : sqlKVClientImpl) (ctx : Context) (db : Store) (op : Op) :
    Except sqlError (Store × DeleteResponse) :=
  match op.CheckValidOp with
  | some err => Except.error { displayed := MetaErr.OptionInvalid (some err), cause := none }
  | none =>
    let key := op.KeyBytes
    let inJob : MetaKV → Bool := fun r => decide (r.JobID = c.jobID)
    let res :=
      if op.IsOptsWithRange then
        dbDelete ctx db (fun r => inJob r &&
          (bytesGe r.KeyValue.Key key && bytesLt r.KeyValue.Key op.RangeBytes))
      else if op.IsOptsWithPrefix then
        dbDelete ctx db (fun r => inJob r && likeMatch (key ++ [pctByte]) r.KeyValue.Key)
      else if op.IsOptsWithFromKey then
        dbDelete ctx db (fun r => inJob r && bytesGe r.KeyValue.Key key)
      else
        dbDelete ctx db (fun r => inJob r && decide (r.KeyValue.Key = key))
    match res with
    | Except.error err => Except.error (sqlErrorFromOpFail (some err))
    | Except.ok db1 => Except.ok (db1, {})

/-- Method `sqlKVClientImpl.Delete`. -/
def sqlKVClientImpl.Delete (c : sqlKVClientImpl) (ctx : Context) (db : Store) (key : Bytes)
    (opts : List OpOption) : Except sqlError (Store × DeleteResponse) :=
  c.doDelete ctx db (OpDelete key opts)

/-! ## The transaction (`sqlTxn`) -/

/-- Modelled from the spec: `metaModel.ResponseOp` with its constructors
`makeGetResponseOp`, `makePutResponseOp` and `makeDelResponseOp` (declared
outside the given sources): a response tagged with the kind of its operation. -/
inductive ResponseOp where
  | makeGetResponseOp (rsp : GetResponse)
  | makePutResponseOp (rsp : PutResponse)
  | makeDelResponseOp (rsp : DeleteResponse)
  deriving DecidableEq, Repr

/-- The response `metaModel.TxnResponse`. -/
structure TxnResponse where
  Responses : List ResponseOp
  deriving DecidableEq, Repr

/-- The transaction object `sqlTxn` without its mutex. -/
structure sqlTxn where
  ctx : Context
  impl : sqlKVClientImpl
  ops : List Op
  Err : Option sqlError
  committed : Bool
  deriving DecidableEq, Repr

/-- Method `sqlKVClientImpl.Txn`. -/
def sqlKVClientImpl.Txn (c : sqlKVClientImpl) (ctx : Context) : sqlTxn :=
  { ctx := ctx, impl := c, ops := [], Err := none, committed := false }

/-- The error set by `Do` and `Commit` on a committed transaction. -/
def errCommittedTxn : sqlError := { displayed := MetaErr.CommittedTxn, cause := none }

/-- Method `sqlTxn.Do`. -/
def sqlTxn.Do (t : sqlTxn) (ops : List Op) : sqlTxn :=
  if t.Err.isSome then t
  else if t.committed then { t with Err := some errCommittedTxn }
  else { t with ops := t.ops ++ ops }

/-- The loop of `Commit` run inside the backend transaction: `tx` is the
transaction handle, `rsps` the responses appended so far. -/
def commitLoop (c : sqlKVClientImpl) (ctx : Context) :
    List Op → Store → List ResponseOp → Except GoError (Store × List ResponseOp)
  | [], tx, rsps => Except.ok (tx, rsps)
  | op :: rest, tx, rsps =>
    if op.IsGet then
      match c.doGet ctx tx op with
      | Except.error err => Except.error (GoError.sql err)
      | Except.ok rsp => commitLoop c ctx rest tx (rsps ++ [ResponseOp.makeGetResponseOp rsp])
    else if op.IsPut then
      match c.doPut ctx tx op with
      | Except.error err => Except.error (GoError.sql err)
      | Except.ok (tx1, rsp) =>
        commitLoop c ctx rest tx1 (rsps ++ [ResponseOp.makePutResponseOp rsp])
    else if op.IsDelete then
      match c.doDelete ctx tx op with
      | Except.error err => Except.error (GoError.sql err)
      | Except.ok (tx1, rsp) =>
        commitLoop c ctx rest tx1 (rsps ++ [ResponseOp.makeDelResponseOp rsp])
    else if op.IsTxn then
      Except.error (GoError.sql { displayed := MetaErr.NestedTxn, cause := none })
    else
      Except.error (GoError.sql { displayed := MetaErr.OpFail none, cause := none })

/-- Method `sqlTxn.Commit`: the transaction after the call, the table after
the call, and the result.  The backend transaction is opened on the client's
table handle, which does not carry the context of the transaction; the
operations inside run with that context.  When the error of the backend
transaction is not a `*sqlError`, the failed type assertion leaves `err2` nil
and `sqlErrorFromOpFail` is called on that nil value. -/
def sqlTxn.Commit (flt : Faults) (t : sqlTxn) (db : Store) :
    sqlTxn × Store × Except sqlError TxnResponse :=
  match t.Err with
  | some e => (t, db, Except.error e)
  | none =>
    if t.committed then
      ({ t with Err := some errCommittedTxn }, db, Except.error errCommittedTxn)
    else
      let t1 := { t with committed := true }
      match Transaction flt db (fun tx => commitLoop t.impl t.ctx t.ops tx []) with
      | (db1, Except.error (GoError.sql err2)) => (t1, db1, Except.error err2)
      | (db1, Except.error (GoError.raw _)) => (t1, db1, Except.error (sqlErrorFromOpFail none))
      | (db1, Except.ok rsps) => (t1, db1, Except.ok { Responses := rsps })

/-! ## Notions used to state the properties -/

/-- The kind a response is tagged with. -/
def ResponseOp.kind : ResponseOp → opType
  | ResponseOp.makeGetResponseOp _ => opType.tGet
  | ResponseOp.makePutResponseOp _ => opType.tPut
  | ResponseOp.makeDelResponseOp _ => opType.tDelete

/-- The transaction states a caller can produce: a fresh transaction, then any
number of `Do` and `Commit` calls. -/
inductive sqlTxn.Reachable : sqlTxn → Prop where
  | fresh (c : sqlKVClientImpl) (ctx : Context) : sqlTxn.Reachable (c.Txn ctx)
  | afterDo (t : sqlTxn) (ops : List Op) : sqlTxn.Reachable t → sqlTxn.Reachable (t.Do ops)
  | afterCommit (flt : Faults) (t : sqlTxn) (db : Store) :
      sqlTxn.Reachable t → sqlTxn.Reachable (t.Commit flt db).1

/-- A call a caller can make on the standalone client, with its arguments. -/
inductive Request where
  | get (key : Bytes) (opts : List OpOption)
  | put (key val : Bytes)
  | delete (key : Bytes) (opts : List OpOption)
  deriving DecidableEq, Repr

/-- The operation passed to `Do` for a request. -/
def Request.toOp : Request → Op
  | Request.get key opts => OpGet key opts
  | Request.put key val => OpPut key val
  | Request.delete key opts => OpDelete key opts

/-- The spec's reading of a batch: the standalone `Get`, `Put` and `Delete` of
the client called one after another, each on the table the previous call
left, stopping at the first error. -/
def standaloneRun (c : sqlKVClientImpl) (ctx : Context) :
    List Request → Store → Except sqlError (Store × List ResponseOp)
  | [], db => Except.ok (db, [])
  | Request.get key opts :: rest, db =>
    match c.Get ctx db key opts with
    | Except.error e => Except.error e
    | Except.ok rsp =>
      match standaloneRun c ctx rest db with
      | Except.error e => Except.error e
      | Except.ok (db1, rsps) => Except.ok (db1, ResponseOp.makeGetResponseOp rsp :: rsps)
  | Request.put key val :: rest, db =>
    match c.Put ctx db key val with
    | Except.error e => Except.error e
    | Except.ok (db0, rsp) =>
      match standaloneRun c ctx rest db0 with
      | Except.error e => Except.error e
      | Except.ok (db1, rsps) => Except.ok (db1, ResponseOp.makePutResponseOp rsp :: rsps)
  | Request.delete key opts :: rest, db =>
    match c.Delete ctx db key opts with
    | Except.error e => Except.error e
    | Except.ok (db0, rsp) =>
      match standaloneRun c ctx rest db0 with
      | Except.error e => Except.error e
      | Except.ok (db1, rsps) => Except.ok (db1, ResponseOp.makeDelResponseOp rsp :: rsps)

/-- The spec's strict order on keys: lexicographic over raw bytes. -/
def lexLt (x y : Bytes) : Prop := List.Lex (· < ·) x y

/-- The spec's order on keys: equal, or smaller in the lexicographic order. -/
def lexLe (x y : Bytes) : Prop := x = y ∨ lexLt x y

instance lexLt.decidable : DecidableRel lexLt :=
  fun x y => inferInstanceAs (Decidable (List.Lex (· < ·) x y))

instance lexLe.decidable : DecidableRel lexLe :=
  fun x y => inferInstanceAs (Decidable (x = y ∨ lexLt x y))

/-- The bytes the backend's pattern operator does not match literally. -/
def isMetaByte (b : Byte) : Bool :=
  decide (b = pctByte) || decide (b = underscoreByte) || decide (b = escapeByte)

/-- A put operation reduced to what `OpPut` builds from its key and value;
every other operation is left as it is. -/
def Op.plainPut (op : Op) : Op :=
  if op.IsPut then OpPut op.key op.val else op

/-- The keys of the items a `Get` returns; no key when the `Get` fails. -/
def sqlKVClientImpl.selectedKeys (c : sqlKVClientImpl) (ctx : Context) (db : Store)
    (key : Bytes) (opts : List OpOption) : List Bytes :=
  match c.Get ctx db key opts with
  | Except.ok rsp => rsp.Kvs.map KeyValue.Key
  | Except.error _ => []

/-- The table holds at most one row per identity `(job_id, key)`. -/
def uniqueIdentity (db : Store) : Prop :=
  (db.map (fun r => (r.JobID, r.KeyValue.Key))).Nodup

/-- The items a `Get` returns; no item when the `Get` fails. -/
def sqlKVClientImpl.selectedItems (c : sqlKVClientImpl) (ctx : Context) (db : Store)
    (key : Bytes) (opts : List OpOption) : List KeyValue :=
  match c.Get ctx db key opts with
  | Except.ok rsp => rsp.Kvs
  | Except.error _ => []

/-- The condition on the key column that `doGet` and `doDelete` build from the
modifiers of an operation. -/
def Op.cond (op : Op) (x : Bytes) : Bool :=
  if op.IsOptsWithRange then bytesGe x op.KeyBytes && bytesLt x op.RangeBytes
  else if op.IsOptsWithPrefix then likeMatch (op.KeyBytes ++ [pctByte]) x
  else if op.IsOptsWithFromKey then bytesGe x op.KeyBytes
  else decide (x = op.KeyBytes)

/-- No modifier is active: the operation targets its exact key. -/
def Op.isExact (op : Op) : Bool :=
  !(op.IsOptsWithRange || op.IsOptsWithPrefix || op.IsOptsWithFromKey)

/-- The same operation with the kind get. -/
def Op.asGet (op : Op) : Op := { op with T := opType.tGet }

/-- Modelled from the spec: `metaModel.OpTxn`, an operation of kind
transaction; the operations nested in it are left out, as in `Op`. -/
def OpTxn : Op :=
  { T := opType.tTxn, key := [], val := [], rangeEnd := none,
    isOptsWithPrefix := false, isOptsWithFromKey := false }

/-- The error `Commit` returns for a nested transaction. -/
def errNestedTxn : sqlError := { displayed := MetaErr.NestedTxn, cause := none }

/-! ## Initialization (`sqlKVClientImpl.Initialize`) -/

/-- The backend steps `Initialize` takes, in the order it takes them. -/
inductive InitStep where
  | AutoMigrateMetaKV
  | NewEpochClient (jobID : JobID)
  deriving DecidableEq, Repr

/-- Failures the two steps of `Initialize` may meet. -/
structure InitFaults where
  migrateErr : Option RawErr
  epochClientErr : Option MetaErr
  deriving DecidableEq, Repr

/-- Modelled from the spec: `ormModel.EpochClient` (declared outside the given
sources), the handle of the Epoch Generator of one job. -/
structure EpochClient where
  jobID : JobID
  deriving DecidableEq, Repr

/-- Method `sqlKVClientImpl.Initialize`: the steps taken, and the error or the
epoch client stored in the client.  `AutoMigrate` of the key-value table runs
with the context; `ormModel.NewEpochClient` follows when it succeeded. -/
def sqlKVClientImpl.Initialize (flt : InitFaults) (c : sqlKVClientImpl) (ctx : Context) :
    List InitStep × Except MetaErr EpochClient :=
  match (if ctx.cancelled then some RawErr.contextCanceled else flt.migrateErr) with
  | some err => ([InitStep.AutoMigrateMetaKV], Except.error (MetaErr.OpFail (some err)))
  | Option.none =>
    match flt.epochClientErr with
    | some err =>
      ([InitStep.AutoMigrateMetaKV, InitStep.NewEpochClient c.jobID], Except.error err)
    | Option.none =>
      ([InitStep.AutoMigrateMetaKV, InitStep.NewEpochClient c.jobID],
        Except.ok { jobID := c.jobID })

/-! ## Construction (`NewSQLKVClientImpl`) -/

/-- The database handle `*sql.DB`; `none` stands for the nil handle. -/
structure SqlDB where
  dsn : String
  deriving DecidableEq, Repr

/-- The calls `NewSQLKVClientImpl` makes on the backend, in order. -/
inductive ClientStep where
  | NewGormDB
  | Table (name : String)
  | Init (step : InitStep)
  deriving DecidableEq, Repr

/-- Failures `NewSQLKVClientImpl` may meet: `orm.NewGormDB` fails, the three
second timeout of the context of `Initialize` has expired, a step of
`Initialize` fails. -/
structure NewClientFaults where
  gormErr : Option MetaErr
  timedOut : Bool
  init : InitFaults
  deriving DecidableEq, Repr

/-- Function `NewSQLKVClientImpl`: the backend calls made, and the error or
the client. -/
def NewSQLKVClientImpl (flt : NewClientFaults) (sqlDB : Option SqlDB) (table : String)
    (jobID : JobID) : List ClientStep × Except MetaErr sqlKVClientImpl :=
  match sqlDB with
  | Option.none => ([], Except.error MetaErr.ParamsInvalid)
  | some _ =>
    match flt.gormErr with
    | some err => ([ClientStep.NewGormDB], Except.error err)
    | Option.none =>
      let scope : List ClientStep := if table ≠ "" then [ClientStep.Table table] else []
      let impl : sqlKVClientImpl := { jobID := jobID }
      match impl.Initialize flt.init { cancelled := flt.timedOut } with
      | (steps, Except.error err) =>
        (ClientStep.NewGormDB :: scope ++ steps.map ClientStep.Init, Except.error err)
      | (steps, Except.ok _) =>
        (ClientStep.NewGormDB :: scope ++ steps.map ClientStep.Init, Except.ok impl)

/-! ## The Epoch Generator -/

/-- Modelled from the spec: the counter table of the Epoch Generator (declared
outside the given sources), the current epoch value of each job. -/
abbrev EpochStore := JobID → Int

/-- The largest 64-bit signed integer. -/
def maxInt64 : Int := 9223372036854775807

/-- Modelled from the spec: `EpochClient.GenEpoch` (declared outside the given
sources), an atomic increment-and-return against the counter of the job, run
as its own backend transaction.  It fails with an operation failure when the
counter cannot be durably advanced: the context is cancelled, the backend
fails, or the counter holds the largest 64-bit value. -/
def EpochClient.GenEpoch (e : EpochClient) (flt : Option RawErr) (ctx : Context)
    (st : EpochStore) : EpochStore × Except MetaErr Int :=
  if ctx.cancelled then (st, Except.error (MetaErr.OpFail (some RawErr.contextCanceled)))
  else
    match flt with
    | some err => (st, Except.error (MetaErr.OpFail (some err)))
    | Option.none =>
      if maxInt64 ≤ st e.jobID then
        (st, Except.error (MetaErr.OpFail (some (RawErr.backend 1690))))
      else (Function.update st e.jobID (st e.jobID + 1), Except.ok (st e.jobID + 1))

/-- Method `sqlKVClientImpl.GenEpoch`: the call is passed to the epoch client
held by the client, which `Initialize` created for the job of the client. -/
def sqlKVClientImpl.GenEpoch (c : sqlKVClientImpl) (flt : Option RawErr) (ctx : Context)
    (st : EpochStore) : EpochStore × Except MetaErr Int :=
  EpochClient.GenEpoch { jobID := c.jobID } flt ctx st

/-- One `GenEpoch` call made by some client, with the failure the backend
injects into it. -/
structure EpochCall where
  client : sqlKVClientImpl
  flt : Option RawErr
  ctx : Context

/-- The counter table after a sequence of `GenEpoch` calls. -/
def runGenEpochs : List EpochCall → EpochStore → EpochStore
  | [], st => st
  | call :: rest, st => runGenEpochs rest (call.client.GenEpoch call.flt call.ctx st).1

end Sqlkv

/-!
# The command `dm-syncer`: `cmd/dm-syncer/config.go`
-/

namespace DmSyncer

/-- The old-format rule `SkipDML`; the field `Type` is written `Type_`. -/
structure SkipDML where
  Schema : String
  Table : String
  Type_ : String
  deriving DecidableEq, Repr

/-- The rule `bf.BinlogEventRule`, with the fields the function sets; an event
type `bf.EventType` is a string. -/
structure BinlogEventRule where
  SchemaPattern : String
  TablePattern : String
  Events : List String
  SQLPattern : List String
  deriving DecidableEq, Repr

/-- The error `errors.NotValidf("event type %s", ...)`. -/
inductive GenError where
  | NotValid (eventType : String)
  deriving DecidableEq, Repr

/-- First loop of `generateBinlogEventRule`: every skip-DDL entry must classify
as `ddl` and is appended to the patterns of `ddlEvents`.  The classifier
`bf.ClassifyEvent` is a parameter. -/
def ddlLoop (ClassifyEvent : String → String) :
    List String → BinlogEventRule → Except GenError BinlogEventRule
  | [], ddlEvents => Except.ok ddlEvents
  | skipDDL :: rest, ddlEvents =>
    if ClassifyEvent skipDDL ≠ "ddl" then Except.error (GenError.NotValid skipDDL)
    else ddlLoop ClassifyEvent rest
      { ddlEvents with SQLPattern := ddlEvents.SQLPattern ++ [skipDDL] }

/-- Inner loop over `result`: the first rule with the schema and table of the
entry gets the event type appended; `none` when no rule is found. -/
def appendToFound : List BinlogEventRule → SkipDML → Option (List BinlogEventRule)
  | [], _ => none
  | evt :: rest, skipDML =>
    if evt.SchemaPattern = skipDML.Schema ∧ evt.TablePattern = skipDML.Table then
      some ({ evt with Events := evt.Events ++ [skipDML.Type_] } :: rest)
    else (appendToFound rest skipDML).map (fun r => evt :: r)

/-- Second loop of `generateBinlogEventRule` over the skip-DML entries. -/
def dmlLoop (ClassifyEvent : String → String) :
    List SkipDML → List BinlogEventRule → Except GenError (List BinlogEventRule)
  | [], result => Except.ok result
  | skipDML :: rest, result =>
    if ClassifyEvent skipDML.Type_ ≠ "dml" then
      Except.error (GenError.NotValid skipDML.Type_)
    else
      match appendToFound result skipDML with
      | some result1 => dmlLoop ClassifyEvent rest result1
      | none => dmlLoop ClassifyEvent rest (result ++
          [{ SchemaPattern := skipDML.Schema, TablePattern := skipDML.Table,
             Events := [skipDML.Type_], SQLPattern := [] }])

/-- Function `generateBinlogEventRule`: `result` starts empty and `ddlEvents`
is filled by the first loop but never added to `result`. -/
def generateBinlogEventRule (ClassifyEvent : String → String) (skipDDLs : List String)
    (skipDMLs : List SkipDML) : Except GenError (List BinlogEventRule) :=
  match ddlLoop ClassifyEvent skipDDLs
      { SchemaPattern := "", TablePattern := "", Events := [], SQLPattern := [] } with
  | Except.error e => Except.error e
  | Except.ok _ => dmlLoop ClassifyEvent skipDMLs []

/-- The schema and table of a skip-DML entry. -/
def SkipDML.pair (d : SkipDML) : String × String := (d.Schema, d.Table)

/-- The distinct schema and table pairs of the entries, in order of first
occurrence. -/
def firstPairs (ds : List SkipDML) : List (String × String) :=
  ((ds.map SkipDML.pair).reverse.dedup).reverse

/-- The rule the claim describes for one pair: the types of the entries with
that pair, in input order. -/
def groupRule (ds : List SkipDML) (p : String × String) : BinlogEventRule :=
  { SchemaPattern := p.1, TablePattern := p.2,
    Events := (ds.filter (fun d => decide (d.pair = p))).map SkipDML.Type_,
    SQLPattern := [] }

/-- The rules the claim describes: one per distinct pair, in order of first
occurrence. -/
def grouped (ds : List SkipDML) : List BinlogEventRule :=
  (firstPairs ds).map (groupRule ds)

/-- Total number of events of a list of rules. -/
def totalEvents (rules : List BinlogEventRule) : Nat :=
  (rules.map (fun r => r.Events.length)).sum

/-- The variables the flags of `newSubTaskConfig` are bound to. -/
inductive FlagVar where
  | printVersion
  | cfgName
  | cfgConfigFile
  | serverID
  | cfgFlavor
  | cfgWorkerCount
  | cfgBatch
  | cfgStatusAddr
  | cfgLogLevel
  | cfgLogFile
  | cfgLogFormat
  | cfgLogRotate
  | cfgEnableGTID
  | cfgSafeMode
  | cfgMaxRetry
  | timezoneStr
  | syncerConfigFormat
  deriving DecidableEq, Repr

/-- One registration `fs.XxxVar(&v, name, default, usage)`; the default is
kept as the text of the flag value. -/
structure FlagDef where
  var : FlagVar
  name : String
  dflt : String
  deriving DecidableEq, Repr

/-- The registrations of `newSubTaskConfig`, in source order. -/
def subTaskFlags : List FlagDef :=
  [ { var := FlagVar.printVersion, name := "V", dflt := "false" },
    { var := FlagVar.cfgName, name := "name", dflt := "" },
    { var := FlagVar.cfgConfigFile, name := "config", dflt := "" },
    { var := FlagVar.serverID, name := "server-id", dflt := "101" },
    { var := FlagVar.cfgFlavor, name := "flavor", dflt := "mysql" },
    { var := FlagVar.cfgWorkerCount, name := "c", dflt := "16" },
    { var := FlagVar.cfgBatch, name := "b", dflt := "100" },
    { var := FlagVar.cfgStatusAddr, name := "status-addr", dflt := ":8271" },
    { var := FlagVar.cfgLogLevel, name := "L", dflt := "info" },
    { var := FlagVar.cfgLogFile, name := "log-file", dflt := "" },
    { var := FlagVar.cfgLogFormat, name := "log-format", dflt := "text" },
    { var := FlagVar.cfgLogRotate, name := "log-rotate", dflt := "day" },
    { var := FlagVar.cfgEnableGTID, name := "enable-gtid", dflt := "false" },
    { var := FlagVar.cfgSafeMode, name := "safe-mode", dflt := "false" },
    { var := FlagVar.cfgMaxRetry, name := "max-retry", dflt := "100" },
    { var := FlagVar.timezoneStr, name := "timezone", dflt := "" },
    { var := FlagVar.cfgName, name := "cp-table-prefix", dflt := "dm-syncer" },
    { var := FlagVar.syncerConfigFormat, name := "syncer-config-format", dflt := "false" } ]

/-- The values of the bound variables, as text. -/
abbrev FlagState := FlagVar → String

/-- Registration stores the default in the bound variable, one flag after the
other. -/
def registerFlags : List FlagDef → FlagState → FlagState
  | [], st => st
  | f :: rest, st => registerFlags rest (Function.update st f.var f.dflt)

/-- The flag set reads the flag occurrences of the argument list in order, each
a flag name and its value, and stores the value in the variable the flag is
bound to; an unknown flag name is an error. -/
def parseFlags (flags : List FlagDef) : List (String × String) → FlagState →
    Except String FlagState
  | [], st => Except.ok st
  | (name, value) :: rest, st =>
    match flags.find? (fun f => decide (f.name = name)) with
    | none => Except.error name
    | some f => parseFlags flags rest (Function.update st f.var value)

/-- The task name `cfg.Name` after the registrations and the parse of
`newSubTaskConfig`; every variable starts as the empty text. -/
def newSubTaskConfigName (args : List (String × String)) : Except String String :=
  match parseFlags subTaskFlags args (registerFlags subTaskFlags (fun _ => "")) with
  | Except.error e => Except.error e
  | Except.ok st => Except.ok (st FlagVar.cfgName)

end DmSyncer

/-!
# The server master configuration: `engine/servermaster/config.go`
-/

namespace ServerMaster

/-- The store configuration `metaModel.StoreConfig`, with the field the
adjustment reads. -/
structure StoreConfig where
  StoreType : String
  deriving DecidableEq, Repr

/-- The configuration `Config`, with the fields `Adjust` reads or writes;
durations are in nanoseconds.  The two store configurations are taken as
present. -/
structure Config where
  Addr : String
  AdvertiseAddr : String
  FrameMetaConf : StoreConfig
  BusinessMetaConf : StoreConfig
  KeepAliveTTLStr : String
  KeepAliveIntervalStr : String
  RPCTimeoutStr : String
  KeepAliveTTL : Int
  KeepAliveInterval : Int
  RPCTimeout : Int
  deriving DecidableEq, Repr

/-- The library function `strings.ToLower` on ASCII text. -/
def ToLower (s : String) : String := String.mk (s.data.map Char.toLower)

/-- The library function `strings.TrimSpace` on ASCII text. -/
def TrimSpace (s : String) : String :=
  String.mk (((s.data.dropWhile Char.isWhitespace).reverse.dropWhile
    Char.isWhitespace).reverse)

/-- Method `Config.adjustStoreConfig`: the two lower-cased, trimmed store types
are computed and not stored. -/
def Config.adjustStoreConfig (c : Config) : Config :=
  let _frame := ToLower (TrimSpace c.FrameMetaConf.StoreType)
  let _business := ToLower (TrimSpace c.BusinessMetaConf.StoreType)
  c

/-- Method `Config.Adjust`: the configuration after the call and the error, if
any.  The library function `time.ParseDuration` is a parameter that gives the
duration, zero on failure, and the error. -/
def Config.Adjust (ParseDuration : String → Int × Option String) (c : Config) :
    Config × Option String :=
  let c1 := if c.AdvertiseAddr = "" then { c with AdvertiseAddr := c.Addr } else c
  let c2 := { c1 with KeepAliveInterval := (ParseDuration c1.KeepAliveIntervalStr).1 }
  match (ParseDuration c1.KeepAliveIntervalStr).2 with
  | some err => (c2, some err)
  | none =>
    let c3 := { c2 with KeepAliveTTL := (ParseDuration c2.KeepAliveTTLStr).1 }
    match (ParseDuration c2.KeepAliveTTLStr).2 with
    | some err => (c3, some err)
    | none =>
      let c4 := { c3 with RPCTimeout := (ParseDuration c3.RPCTimeoutStr).1 }
      match (ParseDuration c3.RPCTimeoutStr).2 with
      | some err => (c4, some err)
      | none => (c4.adjustStoreConfig, none)

end ServerMaster

namespace Sqlkv

/-! ## Lemmas on the transaction -/

/-- Options never change the kind of an operation. -/
theorem ApplyOpts_T (opts : List OpOption) : ∀ op : Op, (op.ApplyOpts opts).T = op.T := by
  induction opts with
  | nil => intro op; rfl
  | cons o rest ih =>
    intro op
    have h := ih (OpOption.apply op o)
    unfold Op.ApplyOpts at h ⊢
    rw [List.foldl_cons, h]
    cases o <;> rfl

/-- The loop of `Commit` on the operations of a request list is the standalone
run of the requests, with the responses appended to those already there. -/
theorem commitLoop_eq_standaloneRun (c : sqlKVClientImpl) (ctx : Context)
    (reqs : List Request) : ∀ (db : Store) (acc : List ResponseOp),
      commitLoop c ctx (reqs.map Request.toOp) db acc =
        match standaloneRun c ctx reqs db with
        | Except.error e => Except.error (GoError.sql e)
        | Except.ok (db1, rsps) => Except.ok (db1, acc ++ rsps) := by
  induction reqs with
  | nil => intro db acc; simp [commitLoop, standaloneRun]
  | cons r rest ih =>
    intro db acc
    cases r with
    | get key opts =>
      have hT : (OpGet key opts).IsGet = true := by simp [Op.IsGet, OpGet, ApplyOpts_T]
      simp only [List.map_cons, Request.toOp, commitLoop, hT, if_true, standaloneRun,
        sqlKVClientImpl.Get]
      cases hr : c.doGet ctx db (OpGet key opts) with
      | error e => rfl
      | ok rsp =>
        simp only [ih]
        cases standaloneRun c ctx rest db with
        | error e => rfl
        | ok res => obtain ⟨db1, rsps⟩ := res; simp
    | put key val =>
      have hG : (OpPut key val).IsGet = false := by simp [Op.IsGet, OpPut]
      have hT : (OpPut key val).IsPut = true := by simp [Op.IsPut, OpPut]
      simp only [List.map_cons, Request.toOp, commitLoop, hG, hT, if_true, standaloneRun,
        sqlKVClientImpl.Put, Bool.false_eq_true, if_false]
      cases hr : c.doPut ctx db (OpPut key val) with
      | error e => rfl
      | ok res0 =>
        obtain ⟨db0, rsp⟩ := res0
        simp only [ih]
        cases standaloneRun c ctx rest db0 with
        | error e => rfl
        | ok res => obtain ⟨db1, rsps⟩ := res; simp
    | delete key opts =>
      have hG : (OpDelete key opts).IsGet = false := by simp [Op.IsGet, OpDelete, ApplyOpts_T]
      have hP : (OpDelete key opts).IsPut = false := by simp [Op.IsPut, OpDelete, ApplyOpts_T]
      have hT : (OpDelete key opts).IsDelete = true := by
        simp [Op.IsDelete, OpDelete, ApplyOpts_T]
      simp only [List.map_cons, Request.toOp, commitLoop, hG, hP, hT, if_true, standaloneRun,
        sqlKVClientImpl.Delete, Bool.false_eq_true, if_false]
      cases hr : c.doDelete ctx db (OpDelete key opts) with
      | error e => rfl
      | ok res0 =>
        obtain ⟨db0, rsp⟩ := res0
        simp only [ih]
        cases standaloneRun c ctx rest db0 with
        | error e => rfl
        | ok res => obtain ⟨db1, rsps⟩ := res; simp

/-- An open transaction on a backend that injects no failure commits exactly
when the loop runs to its end, with the table and responses of the loop. -/
theorem Commit_of_loop_ok {t : sqlTxn} {db db1 : Store} {rsps : List ResponseOp}
    (hE : t.Err = none) (hc : t.committed = false)
    (hl : commitLoop t.impl t.ctx t.ops db [] = Except.ok (db1, rsps)) :
    (t.Commit Faults.none db).2 = (db1, Except.ok { Responses := rsps }) := by
  unfold sqlTxn.Commit
  simp [hE, hc, Transaction, Faults.none, hl]


/-- The error slot of a reachable transaction is empty, or holds the
committed-transaction error on a committed transaction. -/
theorem sqlTxn.Reachable.err_inv {t : sqlTxn} (h : sqlTxn.Reachable t) :
    t.Err = none ∨ (t.Err = some errCommittedTxn ∧ t.committed = true) := by
  induction h with
  | fresh c ctx => left; rfl
  | afterDo t ops _ ih =>
    unfold sqlTxn.Do
    rcases ih with h0 | ⟨h1, h2⟩
    · cases hc : t.committed <;> simp [h0, hc]
    · simp [h1, h2]
  | afterCommit flt t db _ ih =>
    unfold sqlTxn.Commit
    rcases ih with h0 | ⟨h1, h2⟩
    · cases hc : t.committed
      · simp only [h0, Bool.false_eq_true, if_false]
        split <;> simp [h0]
      · simp [h0]
    · simp [h1, h2]

/-- The responses appended by the loop of `Commit` carry, in order, the kinds
of the operations it ran. -/
theorem commitLoop_kinds (c : sqlKVClientImpl) (ctx : Context) (ops : List Op) :
    ∀ (tx : Store) (acc : List ResponseOp) (tx1 : Store) (rsps : List ResponseOp),
      commitLoop c ctx ops tx acc = Except.ok (tx1, rsps) →
      rsps.map ResponseOp.kind = acc.map ResponseOp.kind ++ ops.map Op.T := by
  induction ops with
  | nil =>
    intro tx acc tx1 rsps h
    simp only [commitLoop, Except.ok.injEq, Prod.mk.injEq] at h
    simp [h.2]
  | cons op rest ih =>
    intro tx acc tx1 rsps h
    unfold commitLoop at h
    by_cases hg : op.IsGet = true
    · have hT : op.T = opType.tGet := by simpa [Op.IsGet] using hg
      simp only [hg, if_true] at h
      cases hr : c.doGet ctx tx op with
      | error e => simp [hr] at h
      | ok rsp =>
        simp only [hr] at h
        have := ih _ _ _ _ h
        simp [this, ResponseOp.kind, hT]
    · simp only [hg, Bool.false_eq_true, if_false] at h
      by_cases hp : op.IsPut = true
      · have hT : op.T = opType.tPut := by simpa [Op.IsPut] using hp
        simp only [hp, if_true] at h
        cases hr : c.doPut ctx tx op with
        | error e => simp [hr] at h
        | ok res =>
          obtain ⟨tx2, rsp⟩ := res
          simp only [hr] at h
          have := ih _ _ _ _ h
          simp [this, ResponseOp.kind, hT]
      · simp only [hp, Bool.false_eq_true, if_false] at h
        by_cases hd : op.IsDelete = true
        · have hT : op.T = opType.tDelete := by simpa [Op.IsDelete] using hd
          simp only [hd, if_true] at h
          cases hr : c.doDelete ctx tx op with
          | error e => simp [hr] at h
          | ok res =>
            obtain ⟨tx2, rsp⟩ := res
            simp only [hr] at h
            have := ih _ _ _ _ h
            simp [this, ResponseOp.kind, hT]
        · simp only [hd, Bool.false_eq_true, if_false] at h
          split at h <;> simp at h

/-- What a successful `Commit` returns: the transaction was open, the backend
injected no failure, and the loop ran to its end on the table. -/
theorem Commit_ok_inv {flt : Faults} {t : sqlTxn} {db : Store} {rsp : TxnResponse}
    (h : (t.Commit flt db).2.2 = Except.ok rsp) :
    t.Err = none ∧ t.committed = false ∧
      commitLoop t.impl t.ctx t.ops db [] = Except.ok ((t.Commit flt db).2.1, rsp.Responses) := by
  unfold sqlTxn.Commit at h ⊢
  cases hE : t.Err with
  | some e => simp [hE] at h
  | none =>
    cases hc : t.committed with
    | true => simp [hE, hc] at h
    | false =>
      simp only [hE, hc, Bool.false_eq_true, if_false] at h ⊢
      unfold Transaction at h ⊢
      cases hb : flt.beginErr with
      | some e => simp [hb] at h
      | none =>
        simp only [hb] at h ⊢
        cases hl : commitLoop t.impl t.ctx t.ops db [] with
        | error e => cases e <;> simp [hl] at h
        | ok res =>
          obtain ⟨tx, rs⟩ := res
          simp only [hl] at h ⊢
          cases hm : flt.commitErr with
          | some e => simp [hm] at h
          | none =>
            simp only [hm, Except.ok.injEq] at h ⊢
            subst h
            simp

/-! ## Lemmas on the client -/

/-- After an insert-or-update the first row found under the identity of the
written row is the written row. -/
theorem upsert_first (row : MetaKV) : ∀ db : Store,
    (((upsert db row).filter (fun r => decide (r.JobID = row.JobID))).filter
      (fun r => decide (r.KeyValue.Key = row.KeyValue.Key))).head? = some row := by
  intro db
  induction db with
  | nil => simp [upsert]
  | cons r rest ih =>
    unfold upsert
    by_cases h : r.JobID = row.JobID ∧ r.KeyValue.Key = row.KeyValue.Key
    · simp [h]
    · simp only [h, if_false]
      by_cases hj : r.JobID = row.JobID
      · have hk : ¬ r.KeyValue.Key = row.KeyValue.Key := fun hk => h ⟨hj, hk⟩
        simp only [List.filter_cons, hj, decide_True, if_true, hk, decide_False,
          Bool.false_eq_true, if_false]
        exact ih
      · simp only [List.filter_cons, hj, decide_False, Bool.false_eq_true, if_false]
        exact ih

/-- An insert-or-update adds no row when the identity is already in the table. -/
theorem upsert_length_of_mem (row : MetaKV) : ∀ db : Store,
    (∃ r ∈ db, r.JobID = row.JobID ∧ r.KeyValue.Key = row.KeyValue.Key) →
    (upsert db row).length = db.length := by
  intro db
  induction db with
  | nil => intro h; simp at h
  | cons r rest ih =>
    intro h
    unfold upsert
    by_cases h1 : r.JobID = row.JobID ∧ r.KeyValue.Key = row.KeyValue.Key
    · simp [h1]
    · simp only [h1, if_false, List.length_cons, add_left_inj]
      apply ih
      obtain ⟨x, hx, hx2⟩ := h
      rcases List.mem_cons.1 hx with rfl | hx
      · exact absurd hx2 h1
      · exact ⟨x, hx, hx2⟩

/-- The written row is in the table after an insert-or-update. -/
theorem mem_upsert (row : MetaKV) : ∀ db : Store, row ∈ upsert db row := by
  intro db
  induction db with
  | nil => simp [upsert]
  | cons r rest ih =>
    unfold upsert
    by_cases h1 : r.JobID = row.JobID ∧ r.KeyValue.Key = row.KeyValue.Key
    · simp [h1]
    · simp only [h1, if_false]
      exact List.mem_cons_of_mem _ ih

/-- An insert-or-update by one job leaves the rows of every other job as they
were, in the same order. -/
theorem filter_job_upsert (row : MetaKV) (B : JobID) (hB : row.JobID ≠ B) : ∀ db : Store,
    (upsert db row).filter (fun r => decide (r.JobID = B))
      = db.filter (fun r => decide (r.JobID = B)) := by
  intro db
  induction db with
  | nil => simp [upsert, hB]
  | cons r rest ih =>
    unfold upsert
    by_cases h1 : r.JobID = row.JobID ∧ r.KeyValue.Key = row.KeyValue.Key
    · have hr : r.JobID ≠ B := by rw [h1.1]; exact hB
      simp [h1, List.filter_cons, hB, hr]
    · simp only [h1, if_false, List.filter_cons, ih]

/-- A delete restricted to one job leaves the rows of every other job as they
were, in the same order. -/
theorem filter_job_delete (A B : JobID) (hAB : A ≠ B) (p : MetaKV → Bool) (db : Store) :
    (db.filter (fun r => !(decide (r.JobID = A) && p r))).filter (fun r => decide (r.JobID = B))
      = db.filter (fun r => decide (r.JobID = B)) := by
  rw [List.filter_filter]
  apply List.filter_congr
  intro r _
  by_cases hB : r.JobID = B
  · have hA : ¬ r.JobID = A := fun hA => hAB (hA.symm.trans hB)
    simp only [hA, decide_False, Bool.false_and, Bool.not_false, Bool.and_true]
  · simp [hB]

/-- Method `doPut` of one job leaves the rows of every other job as they were. -/
theorem doPut_other_job (c : sqlKVClientImpl) (B : JobID) (hB : c.jobID ≠ B) (ctx : Context)
    (db db1 : Store) (op : Op) (rsp : PutResponse)
    (h : c.doPut ctx db op = Except.ok (db1, rsp)) :
    db1.filter (fun r => decide (r.JobID = B)) = db.filter (fun r => decide (r.JobID = B)) := by
  unfold sqlKVClientImpl.doPut dbCreateOnConflictUpdateAll at h
  cases hc : ctx.cancelled with
  | true => simp [hc] at h
  | false =>
    simp only [hc, Bool.false_eq_true, if_false, Except.ok.injEq, Prod.mk.injEq] at h
    rw [← h.1]
    exact filter_job_upsert _ B hB db

/-- Method `doDelete` of one job leaves the rows of every other job as they
were. -/
theorem doDelete_other_job (c : sqlKVClientImpl) (B : JobID) (hB : c.jobID ≠ B) (ctx : Context)
    (db db1 : Store) (op : Op) (rsp : DeleteResponse)
    (h : c.doDelete ctx db op = Except.ok (db1, rsp)) :
    db1.filter (fun r => decide (r.JobID = B)) = db.filter (fun r => decide (r.JobID = B)) := by
  unfold sqlKVClientImpl.doDelete dbDelete at h
  cases hv : op.CheckValidOp with
  | some e => simp [hv] at h
  | none =>
    cases hc : ctx.cancelled with
    | true => simp [hv, hc] at h
    | false =>
      simp only [hv, hc, Bool.false_eq_true, if_false] at h
      split_ifs at h <;>
        (simp only [Except.ok.injEq, Prod.mk.injEq] at h
         rw [← h.1]
         exact filter_job_delete _ B hB _ db)

/-- The loop of `Commit` of one job leaves the rows of every other job as they
were. -/
theorem commitLoop_other_job (c : sqlKVClientImpl) (B : JobID) (hB : c.jobID ≠ B)
    (ctx : Context) (ops : List Op) :
    ∀ (tx : Store) (acc : List ResponseOp) (tx1 : Store) (rsps : List ResponseOp),
      commitLoop c ctx ops tx acc = Except.ok (tx1, rsps) →
      tx1.filter (fun r => decide (r.JobID = B)) = tx.filter (fun r => decide (r.JobID = B)) := by
  induction ops with
  | nil =>
    intro tx acc tx1 rsps h
    simp only [commitLoop, Except.ok.injEq, Prod.mk.injEq] at h
    rw [h.1]
  | cons op rest ih =>
    intro tx acc tx1 rsps h
    unfold commitLoop at h
    by_cases hg : op.IsGet = true
    · simp only [hg, if_true] at h
      cases hr : c.doGet ctx tx op with
      | error e => simp [hr] at h
      | ok rsp =>
        simp only [hr] at h
        exact ih _ _ _ _ h
    · simp only [hg, Bool.false_eq_true, if_false] at h
      by_cases hp : op.IsPut = true
      · simp only [hp, if_true] at h
        cases hr : c.doPut ctx tx op with
        | error e => simp [hr] at h
        | ok res =>
          obtain ⟨tx2, rsp⟩ := res
          simp only [hr] at h
          rw [ih _ _ _ _ h]
          exact doPut_other_job c B hB ctx tx tx2 op rsp hr
      · simp only [hp, Bool.false_eq_true, if_false] at h
        by_cases hd : op.IsDelete = true
        · simp only [hd, if_true] at h
          cases hr : c.doDelete ctx tx op with
          | error e => simp [hr] at h
          | ok res =>
            obtain ⟨tx2, rsp⟩ := res
            simp only [hr] at h
            rw [ih _ _ _ _ h]
            exact doDelete_other_job c B hB ctx tx tx2 op rsp hr
        · simp only [hd, Bool.false_eq_true, if_false] at h
          split at h <;> simp at h

/-- Method `doGet` reads the table only through the rows of the client's job. -/
theorem doGet_congr (c : sqlKVClientImpl) (ctx : Context) (db db1 : Store) (op : Op)
    (h : db1.filter (fun r => decide (r.JobID = c.jobID))
      = db.filter (fun r => decide (r.JobID = c.jobID))) :
    c.doGet ctx db1 op = c.doGet ctx db op := by
  unfold sqlKVClientImpl.doGet
  simp only [h]

/-- The table after `Commit` holds the rows of every job other than the
transaction's as they were. -/
theorem Commit_other_job (flt : Faults) (t : sqlTxn) (B : JobID) (hB : t.impl.jobID ≠ B)
    (db : Store) :
    (t.Commit flt db).2.1.filter (fun r => decide (r.JobID = B))
      = db.filter (fun r => decide (r.JobID = B)) := by
  cases hr : (t.Commit flt db).2.2 with
  | error e =>
    have h1 : (t.Commit flt db).2.1 = db := by
      unfold sqlTxn.Commit at hr ⊢
      cases hE : t.Err with
      | some e1 => simp
      | none =>
        cases hc : t.committed with
        | true => simp
        | false =>
          simp only [hE, hc, Bool.false_eq_true, if_false] at hr ⊢
          unfold Transaction at hr ⊢
          cases hb : flt.beginErr with
          | some e1 => simp
          | none =>
            simp only [hb] at hr ⊢
            cases hl : commitLoop t.impl t.ctx t.ops db [] with
            | error e1 => cases e1 <;> simp
            | ok res =>
              obtain ⟨tx, rs⟩ := res
              simp only [hl] at hr ⊢
              cases hm : flt.commitErr with
              | some e1 => simp
              | none => simp [hm] at hr
    rw [h1]
  | ok rsp =>
    exact commitLoop_other_job t.impl B hB t.ctx t.ops _ _ _ _ (Commit_ok_inv hr).2.2

/-! ## Lemmas on the backend operators -/

/-- The backend's `<` on binary strings is the lexicographic order over raw
bytes. -/
theorem bytesLt_iff : ∀ x y : Bytes, bytesLt x y = true ↔ lexLt x y := by
  intro x
  induction x with
  | nil =>
    intro y
    cases y with
    | nil => simp [bytesLt, lexLt]
    | cons b bs => simp [bytesLt, lexLt, List.Lex.nil]
  | cons a as ih =>
    intro y
    cases y with
    | nil => simp [bytesLt, lexLt]
    | cons b bs =>
      simp only [bytesLt, Bool.or_eq_true, decide_eq_true_eq, Bool.and_eq_true, ih, lexLt]
      constructor
      · rintro (h | ⟨rfl, h⟩)
        · exact List.Lex.rel h
        · exact List.Lex.cons h
      · intro h
        cases h with
        | cons h => exact Or.inr ⟨rfl, h⟩
        | rel h => exact Or.inl h

/-- The backend's `x >= y` on binary strings is the lexicographic `y <= x`. -/
theorem bytesGe_iff (x y : Bytes) : bytesGe x y = true ↔ lexLe y x := by
  have hlt := bytesLt_iff x y
  unfold bytesGe lexLe
  rw [Bool.not_eq_true', ← Bool.not_eq_true, hlt]
  unfold lexLt
  constructor
  · intro h
    rcases trichotomous_of (List.Lex (fun a b : Byte => a < b)) x y with h1 | h1 | h1
    · exact absurd h1 h
    · exact Or.inl h1.symm
    · exact Or.inr h1
  · rintro (rfl | h) h2
    · exact irrefl_of (List.Lex (fun a b : Byte => a < b)) _ h2
    · exact asymm_of (List.Lex (fun a b : Byte => a < b)) h h2

/-- The lexicographic order on keys is transitive. -/
theorem lexLt_trans {x y z : Bytes} (h1 : lexLt x y) (h2 : lexLt y z) : lexLt x z :=
  trans_of (List.Lex (fun a b : Byte => a < b)) h1 h2

/-- No key is below itself. -/
theorem lexLt_irrefl (x : Bytes) : ¬ lexLt x x :=
  irrefl_of (List.Lex (fun a b : Byte => a < b)) x

/-- One step of the pattern operator on a non-empty pattern. -/
theorem likeMatch_cons (c : Byte) (p s : Bytes) :
    likeMatch (c :: p) s =
      if c = pctByte then s.tails.any (fun t => likeMatch p t)
      else if c = underscoreByte then
        match s with
        | [] => false
        | _ :: t => likeMatch p t
      else if c = escapeByte then
        match s with
        | [] => false
        | d :: t =>
          match p with
          | [] => decide (d = escapeByte) && t.isEmpty
          | e :: q => decide (e = d) && likeMatch q t
      else
        match s with
        | [] => false
        | d :: t => decide (c = d) && likeMatch p t := by
  conv_lhs => unfold likeMatch
  rfl

/-- The empty pattern matches the empty string only. -/
theorem likeMatch_nil (s : Bytes) : likeMatch [] s = s.isEmpty := by
  unfold likeMatch
  rfl

/-- A pattern made of a key without metacharacters followed by `%` matches
exactly the strings that start with the key. -/
theorem likeMatch_of_plain_key : ∀ (p s : Bytes), (∀ b ∈ p, isMetaByte b = false) →
    likeMatch (p ++ [pctByte]) s = p.isPrefixOf s := by
  intro p
  induction p with
  | nil =>
    intro s _
    rw [List.nil_append, likeMatch_cons, if_pos rfl]
    rw [List.isPrefixOf_nil_left, List.any_eq_true]
    exact ⟨[], by simp, by rw [likeMatch_nil]; rfl⟩
  | cons c p ih =>
    intro s hp
    have hc := hp c (List.mem_cons_self _ _)
    simp only [isMetaByte, Bool.or_eq_false_iff, decide_eq_false_iff_not] at hc
    obtain ⟨⟨h1, h2⟩, h3⟩ := hc
    have ihp := fun t => ih t (fun b hb => hp b (List.mem_cons_of_mem _ hb))
    cases s with
    | nil => rw [List.cons_append, likeMatch_cons, if_neg h1, if_neg h2, if_neg h3]; rfl
    | cons d t =>
      rw [List.cons_append, likeMatch_cons, if_neg h1, if_neg h2, if_neg h3]
      simp only [ihp, List.isPrefixOf]
      by_cases hcd : c = d
      · simp [hcd]
      · simp [hcd]

/-! ## Closed forms of `Get` under a live context -/

/-- Range mode of `Get`: the rows of the job selected by the backend's
`key >= k AND key < e`, in storage order. -/
theorem Get_range_eq (c : sqlKVClientImpl) (ctx : Context) (hlive : ctx.cancelled = false)
    (db : Store) (k e : Bytes) :
    c.Get ctx db k [OpOption.WithRange e] = Except.ok
      { Kvs := List.map MetaKV.KeyValue
          ((db.filter (fun r => decide (r.JobID = c.jobID))).filter
            (fun r => bytesGe r.KeyValue.Key k && bytesLt r.KeyValue.Key e)) } := by
  have hv : (OpGet k [OpOption.WithRange e]).CheckValidOp = none := by
    simp [OpGet, Op.ApplyOpts, OpOption.apply, Op.CheckValidOp, Op.modifierCount,
      Op.IsOptsWithRange, Op.IsOptsWithPrefix, Op.IsOptsWithFromKey, Op.IsPut]
  have hr : (OpGet k [OpOption.WithRange e]).IsOptsWithRange = true := rfl
  have hkey : (OpGet k [OpOption.WithRange e]).KeyBytes = k := rfl
  have hend : (OpGet k [OpOption.WithRange e]).RangeBytes = e := rfl
  simp only [sqlKVClientImpl.Get, sqlKVClientImpl.doGet, hv, hr, hkey, hend, dbFind, hlive,
    Bool.false_eq_true, if_false, if_true]

/-- Prefix mode of `Get`: the rows of the job selected by the backend's
`key LIKE k%`, in storage order. -/
theorem Get_prefix_eq (c : sqlKVClientImpl) (ctx : Context) (hlive : ctx.cancelled = false)
    (db : Store) (k : Bytes) :
    c.Get ctx db k [OpOption.WithPrefix] = Except.ok
      { Kvs := List.map MetaKV.KeyValue
          ((db.filter (fun r => decide (r.JobID = c.jobID))).filter
            (fun r => likeMatch (k ++ [pctByte]) r.KeyValue.Key)) } := by
  have hv : (OpGet k [OpOption.WithPrefix]).CheckValidOp = none := by
    simp [OpGet, Op.ApplyOpts, OpOption.apply, Op.CheckValidOp, Op.modifierCount,
      Op.IsOptsWithRange, Op.IsOptsWithPrefix, Op.IsOptsWithFromKey, Op.IsPut]
  have hr : (OpGet k [OpOption.WithPrefix]).IsOptsWithRange = false := rfl
  have hp : (OpGet k [OpOption.WithPrefix]).IsOptsWithPrefix = true := rfl
  have hkey : (OpGet k [OpOption.WithPrefix]).KeyBytes = k := rfl
  simp only [sqlKVClientImpl.Get, sqlKVClientImpl.doGet, hv, hr, hp, hkey, dbFind, hlive,
    Bool.false_eq_true, if_false, if_true]

/-- From-key mode of `Get`: the rows of the job selected by the backend's
`key >= k`, in storage order. -/
theorem Get_fromKey_eq (c : sqlKVClientImpl) (ctx : Context) (hlive : ctx.cancelled = false)
    (db : Store) (k : Bytes) :
    c.Get ctx db k [OpOption.WithFromKey] = Except.ok
      { Kvs := List.map MetaKV.KeyValue
          ((db.filter (fun r => decide (r.JobID = c.jobID))).filter
            (fun r => bytesGe r.KeyValue.Key k)) } := by
  have hv : (OpGet k [OpOption.WithFromKey]).CheckValidOp = none := by
    simp [OpGet, Op.ApplyOpts, OpOption.apply, Op.CheckValidOp, Op.modifierCount,
      Op.IsOptsWithRange, Op.IsOptsWithPrefix, Op.IsOptsWithFromKey, Op.IsPut]
  have hr : (OpGet k [OpOption.WithFromKey]).IsOptsWithRange = false := rfl
  have hp : (OpGet k [OpOption.WithFromKey]).IsOptsWithPrefix = false := rfl
  have hf : (OpGet k [OpOption.WithFromKey]).IsOptsWithFromKey = true := rfl
  have hkey : (OpGet k [OpOption.WithFromKey]).KeyBytes = k := rfl
  simp only [sqlKVClientImpl.Get, sqlKVClientImpl.doGet, hv, hr, hp, hf, hkey, dbFind, hlive,
    Bool.false_eq_true, if_false, if_true]

/-! ## Lemmas on `doGet` and `doDelete` for valid operations -/

/-- Options act on an operation independently of its kind. -/
theorem ApplyOpts_asGet (opts : List OpOption) : ∀ op : Op,
    (op.asGet).ApplyOpts opts = (op.ApplyOpts opts).asGet := by
  induction opts with
  | nil => intro op; rfl
  | cons o rest ih =>
    intro op
    have h := ih (OpOption.apply op o)
    unfold Op.ApplyOpts at h ⊢
    rw [List.foldl_cons, List.foldl_cons, ← h]
    cases o <;> rfl

/-- The get built from a key and options is the delete built from them, with
the kind get. -/
theorem OpGet_eq_asGet (key : Bytes) (opts : List OpOption) :
    OpGet key opts = (OpDelete key opts).asGet := by
  unfold OpGet OpDelete
  rw [← ApplyOpts_asGet]
  rfl

/-- A valid operation of a kind other than put stays valid with the kind get. -/
theorem CheckValidOp_asGet (op : Op) (h : op.CheckValidOp = none) :
    op.asGet.CheckValidOp = none := by
  unfold Op.CheckValidOp at h ⊢
  have hm : op.asGet.modifierCount = op.modifierCount := rfl
  have hp : op.asGet.IsPut = false := rfl
  by_cases h1 : 1 < op.modifierCount
  · simp [h1] at h
  · simp [hm, h1, hp]

/-- Method `doDelete` on a valid operation with a live context: the rows of the
job that satisfy the condition of the operation are removed. -/
theorem doDelete_valid (c : sqlKVClientImpl) (ctx : Context) (hlive : ctx.cancelled = false)
    (db : Store) (op : Op) (hv : op.CheckValidOp = none) :
    c.doDelete ctx db op = Except.ok
      (db.filter (fun r => !(decide (r.JobID = c.jobID) && op.cond r.KeyValue.Key)), {}) := by
  unfold sqlKVClientImpl.doDelete dbDelete Op.cond
  simp only [hv, hlive, Bool.false_eq_true, if_false]
  cases h1 : op.IsOptsWithRange <;> cases h2 : op.IsOptsWithPrefix <;>
    cases h3 : op.IsOptsWithFromKey <;> simp

/-- Method `doGet` on a valid operation with a live context: the rows of the
job that satisfy the condition of the operation, all of them under a modifier
and the first of them for an exact key. -/
theorem doGet_valid (c : sqlKVClientImpl) (ctx : Context) (hlive : ctx.cancelled = false)
    (db : Store) (op : Op) (hv : op.CheckValidOp = none) :
    c.doGet ctx db op =
      if op.isExact then
        match ((db.filter (fun r => decide (r.JobID = c.jobID))).filter
            (fun r => op.cond r.KeyValue.Key)).head? with
        | none => Except.error (sqlErrorFromOpFail (some RawErr.recordNotFound))
        | some r => Except.ok { Kvs := [r.KeyValue] }
      else
        Except.ok
          { Kvs := List.map MetaKV.KeyValue
              ((db.filter (fun r => decide (r.JobID = c.jobID))).filter
                (fun r => op.cond r.KeyValue.Key)) } := by
  unfold sqlKVClientImpl.doGet dbFind dbFirst Op.cond Op.isExact
  simp only [hv, hlive, Bool.false_eq_true, if_false]
  cases h1 : op.IsOptsWithRange <;> cases h2 : op.IsOptsWithPrefix <;>
    cases h3 : op.IsOptsWithFromKey <;>
    simp only [Bool.false_eq_true, if_false, if_true, Bool.or_false, Bool.or_true, Bool.not_true,
      Bool.not_false]
  · cases ((db.filter (fun r => decide (r.JobID = c.jobID))).filter
        (fun r => decide (r.KeyValue.Key = op.KeyBytes))).head? <;> rfl

/-- The keys returned by `doGet` on a valid operation with a live context are
the keys of the rows of the job that satisfy the condition of the operation. -/
theorem doGet_keys (c : sqlKVClientImpl) (ctx : Context) (hlive : ctx.cancelled = false)
    (db : Store) (op : Op) (hv : op.CheckValidOp = none) (x : Bytes) :
    x ∈ (match c.doGet ctx db op with
        | Except.ok rsp => rsp.Kvs.map KeyValue.Key
        | Except.error _ => []) ↔
      ∃ r ∈ db, r.JobID = c.jobID ∧ r.KeyValue.Key = x ∧ op.cond x = true := by
  rw [doGet_valid c ctx hlive db op hv]
  have hmem : ∀ r : MetaKV, r ∈ (db.filter (fun r => decide (r.JobID = c.jobID))).filter
      (fun r => op.cond r.KeyValue.Key) ↔ r ∈ db ∧ r.JobID = c.jobID ∧
        op.cond r.KeyValue.Key = true := by
    intro r
    simp only [List.mem_filter, decide_eq_true_eq, and_assoc]
  cases hx : op.isExact with
  | false =>
    simp only [Bool.false_eq_true, if_false, List.map_map, List.mem_map, Function.comp]
    constructor
    · rintro ⟨r, hr, rfl⟩
      obtain ⟨h1, h2, h3⟩ := (hmem r).1 hr
      exact ⟨r, h1, h2, rfl, h3⟩
    · rintro ⟨r, h1, h2, rfl, h3⟩
      exact ⟨r, (hmem r).2 ⟨h1, h2, h3⟩, rfl⟩
  | true =>
    have hc : ∀ y : Bytes, op.cond y = decide (y = op.KeyBytes) := by
      intro y
      unfold Op.isExact at hx
      simp only [Bool.not_eq_true', Bool.or_eq_false_iff] at hx
      unfold Op.cond
      simp [hx.1.1, hx.1.2, hx.2]
    simp only [if_true]
    cases hh : ((db.filter (fun r => decide (r.JobID = c.jobID))).filter
        (fun r => op.cond r.KeyValue.Key)).head? with
    | none =>
      simp only [List.not_mem_nil, false_iff]
      rintro ⟨r, h1, h2, h3, h4⟩
      rw [List.head?_eq_none_iff] at hh
      have : r ∈ ([] : List MetaKV) := by
        rw [← hh]
        exact (hmem r).2 ⟨h1, h2, by rw [h3]; exact h4⟩
      simp at this
    | some r0 =>
      have hr0 := (hmem r0).1 (List.mem_of_mem_head? hh)
      have hk0 : r0.KeyValue.Key = op.KeyBytes := by
        have := hr0.2.2
        rw [hc] at this
        simpa using this
      simp only [List.map_cons, List.map_nil, List.mem_singleton]
      constructor
      · rintro rfl
        exact ⟨r0, hr0.1, hr0.2.1, rfl, hr0.2.2⟩
      · rintro ⟨r, _, _, h3, h4⟩
        rw [hc] at h4
        rw [hk0]
        simpa using h4

/-- Every item returned by `doGet` is the key-value pair of a row of the job. -/
theorem doGet_items_mem (c : sqlKVClientImpl) (ctx : Context) (db : Store) (op : Op)
    (rsp : GetResponse) (h : c.doGet ctx db op = Except.ok rsp) :
    ∀ kv ∈ rsp.Kvs, ∃ r ∈ db, r.JobID = c.jobID ∧ r.KeyValue = kv := by
  cases hv : op.CheckValidOp with
  | some e => simp [sqlKVClientImpl.doGet, hv] at h
  | none =>
    cases hc : ctx.cancelled with
    | true =>
      unfold sqlKVClientImpl.doGet dbFind dbFirst at h
      simp only [hv, hc, if_true] at h
      split_ifs at h
    | false =>
      rw [doGet_valid c ctx hc db op hv] at h
      intro kv hkv
      cases hx : op.isExact with
      | false =>
        simp only [hx, Bool.false_eq_true, if_false, Except.ok.injEq] at h
        rw [← h] at hkv
        simp only [List.mem_map, List.mem_filter, decide_eq_true_eq] at hkv
        obtain ⟨r, ⟨⟨h1, h2⟩, _⟩, h3⟩ := hkv
        exact ⟨r, h1, h2, h3⟩
      | true =>
        simp only [hx, if_true] at h
        cases hh : ((db.filter (fun r => decide (r.JobID = c.jobID))).filter
            (fun r => op.cond r.KeyValue.Key)).head? with
        | none =>
          simp only [hh] at h
          exact absurd h (by simp)
        | some r0 =>
          simp only [hh, Except.ok.injEq] at h
          rw [← h] at hkv
          simp only [List.mem_singleton] at hkv
          have hr0 := List.mem_of_mem_head? hh
          simp only [List.mem_filter, decide_eq_true_eq] at hr0
          exact ⟨r0, hr0.1.1, hr0.1.2, hkv.symm⟩

/-! ## Tables with one row per identity -/

/-- The empty table has at most one row per identity. -/
theorem uniqueIdentity_nil : uniqueIdentity [] := by
  simp [uniqueIdentity]

/-- Removing rows keeps at most one row per identity. -/
theorem uniqueIdentity_filter (db : Store) (p : MetaKV → Bool) (h : uniqueIdentity db) :
    uniqueIdentity (db.filter p) := by
  unfold uniqueIdentity at h ⊢
  exact h.sublist ((List.filter_sublist db).map _)

/-- The identities in the table after an insert-or-update are those before it
and the identity of the written row. -/
theorem identity_mem_upsert (row : MetaKV) (x : JobID × Bytes) : ∀ db : Store,
    x ∈ (upsert db row).map (fun r => (r.JobID, r.KeyValue.Key)) →
    x ∈ db.map (fun r => (r.JobID, r.KeyValue.Key)) ∨ x = (row.JobID, row.KeyValue.Key) := by
  intro db
  induction db with
  | nil =>
    intro h
    simp only [upsert, List.map_cons, List.map_nil, List.mem_singleton] at h
    exact Or.inr h
  | cons r rest ih =>
    intro h
    unfold upsert at h
    by_cases h1 : r.JobID = row.JobID ∧ r.KeyValue.Key = row.KeyValue.Key
    · simp only [h1, and_self, if_true, List.map_cons, List.mem_cons] at h
      rcases h with h | h
      · exact Or.inr h
      · exact Or.inl (List.mem_cons_of_mem _ h)
    · simp only [h1, if_false, List.map_cons, List.mem_cons] at h
      rcases h with h | h
      · exact Or.inl (by rw [h]; exact List.mem_cons_self _ _)
      · rcases ih h with h2 | h2
        · exact Or.inl (List.mem_cons_of_mem _ h2)
        · exact Or.inr h2

/-- An insert-or-update keeps at most one row per identity. -/
theorem uniqueIdentity_upsert (row : MetaKV) : ∀ db : Store,
    uniqueIdentity db → uniqueIdentity (upsert db row) := by
  intro db
  induction db with
  | nil => intro _; simp [uniqueIdentity, upsert]
  | cons r rest ih =>
    intro h
    unfold uniqueIdentity at h ih ⊢
    rw [List.map_cons, List.nodup_cons] at h
    unfold upsert
    by_cases h1 : r.JobID = row.JobID ∧ r.KeyValue.Key = row.KeyValue.Key
    · simp only [h1, and_self, if_true, List.map_cons, List.nodup_cons]
      rw [← h1.1, ← h1.2]
      exact h
    · simp only [h1, if_false, List.map_cons, List.nodup_cons]
      refine ⟨?_, ih h.2⟩
      intro hmem
      rcases identity_mem_upsert row _ rest hmem with h2 | h2
      · exact h.1 h2
      · simp only [Prod.mk.injEq] at h2
        exact h1 h2

/-! ## Lemmas on the loop of `Commit` -/

/-- The loop of `Commit` on a list in two parts runs the first part, then the
second part from where the first part ended. -/
theorem commitLoop_append (c : sqlKVClientImpl) (ctx : Context) (pre rest : List Op) :
    ∀ (tx : Store) (acc : List ResponseOp),
      commitLoop c ctx (pre ++ rest) tx acc =
        match commitLoop c ctx pre tx acc with
        | Except.error e => Except.error e
        | Except.ok (tx1, acc1) => commitLoop c ctx rest tx1 acc1 := by
  induction pre with
  | nil => intro tx acc; rfl
  | cons op pre ih =>
    intro tx acc
    rw [List.cons_append]
    simp only [commitLoop]
    by_cases hg : op.IsGet = true
    · simp only [hg, if_true]
      cases c.doGet ctx tx op with
      | error e => rfl
      | ok rsp => exact ih _ _
    · simp only [hg, Bool.false_eq_true, if_false]
      by_cases hp : op.IsPut = true
      · simp only [hp, if_true]
        cases c.doPut ctx tx op with
        | error e => rfl
        | ok res => exact ih _ _
      · simp only [hp, Bool.false_eq_true, if_false]
        by_cases hd : op.IsDelete = true
        · simp only [hd, if_true]
          cases c.doDelete ctx tx op with
          | error e => rfl
          | ok res => exact ih _ _
        · simp only [hd, Bool.false_eq_true, if_false]
          split <;> rfl

/-- The loop of `Commit` stops with the nested-transaction error at an
operation of kind transaction. -/
theorem commitLoop_txn (c : sqlKVClientImpl) (ctx : Context) (op : Op) (post : List Op)
    (hop : op.IsTxn = true) (tx : Store) (acc : List ResponseOp) :
    commitLoop c ctx (op :: post) tx acc = Except.error (GoError.sql errNestedTxn) := by
  have hT : op.T = opType.tTxn := by simpa [Op.IsTxn] using hop
  have hg : op.IsGet = false := by simp [Op.IsGet, hT]
  have hp : op.IsPut = false := by simp [Op.IsPut, hT]
  have hd : op.IsDelete = false := by simp [Op.IsDelete, hT]
  simp only [commitLoop, hg, hp, hd, hop, Bool.false_eq_true, if_false, if_true, errNestedTxn]

/-- The loop of `Commit` only fails with errors of the store's own type. -/
theorem commitLoop_error_sql (c : sqlKVClientImpl) (ctx : Context) (ops : List Op) :
    ∀ (tx : Store) (acc : List ResponseOp) (e : GoError),
      commitLoop c ctx ops tx acc = Except.error e → ∃ e1 : sqlError, e = GoError.sql e1 := by
  induction ops with
  | nil => intro tx acc e h; simp [commitLoop] at h
  | cons op rest ih =>
    intro tx acc e h
    unfold commitLoop at h
    by_cases hg : op.IsGet = true
    · simp only [hg, if_true] at h
      cases hr : c.doGet ctx tx op with
      | error e1 =>
        simp only [hr, Except.error.injEq] at h
        exact ⟨e1, h.symm⟩
      | ok rsp =>
        simp only [hr] at h
        exact ih _ _ _ h
    · simp only [hg, Bool.false_eq_true, if_false] at h
      by_cases hp : op.IsPut = true
      · simp only [hp, if_true] at h
        cases hr : c.doPut ctx tx op with
        | error e1 =>
          simp only [hr, Except.error.injEq] at h
          exact ⟨e1, h.symm⟩
        | ok res =>
          simp only [hr] at h
          exact ih _ _ _ h
      · simp only [hp, Bool.false_eq_true, if_false] at h
        by_cases hd : op.IsDelete = true
        · simp only [hd, if_true] at h
          cases hr : c.doDelete ctx tx op with
          | error e1 =>
            simp only [hr, Except.error.injEq] at h
            exact ⟨e1, h.symm⟩
          | ok res =>
            simp only [hr] at h
            exact ih _ _ _ h
        · simp only [hd, Bool.false_eq_true, if_false] at h
          split at h <;>
            (simp only [Except.error.injEq] at h
             exact ⟨_, h.symm⟩)

/-- An open transaction whose backend transaction begins: when the loop stops
with an error, `Commit` returns that error and the table is as before. -/
theorem Commit_of_loop_error {flt : Faults} {t : sqlTxn} {db : Store} {e : sqlError}
    (hE : t.Err = none) (hc : t.committed = false) (hb : flt.beginErr = none)
    (hl : commitLoop t.impl t.ctx t.ops db [] = Except.error (GoError.sql e)) :
    (t.Commit flt db).2 = (db, Except.error e) := by
  unfold sqlTxn.Commit
  simp [hE, hc, Transaction, hb, hl]

/-- The pending operations and the committed flag after `Commit`: the
operations are as before and the flag is set. -/
theorem Commit_state (flt : Faults) (t : sqlTxn) (db : Store) :
    (t.Commit flt db).1.ops = t.ops ∧ (t.Commit flt db).1.ctx = t.ctx ∧
      (t.Commit flt db).1.impl = t.impl ∧
      (t.Err = none → (t.Commit flt db).1.committed = true) := by
  unfold sqlTxn.Commit
  cases hE : t.Err with
  | some e => simp
  | none =>
    cases hc : t.committed with
    | true => simp
    | false =>
      simp only [Bool.false_eq_true, if_false]
      split <;> simp

/-- After `Commit` a transaction without a stored error is committed. -/
theorem Commit_committed_of_err_none (flt : Faults) (t : sqlTxn) (db : Store) :
    (t.Commit flt db).1.Err = none → (t.Commit flt db).1.committed = true := by
  unfold sqlTxn.Commit
  cases hE : t.Err with
  | some e => simp [hE]
  | none =>
    cases hc : t.committed with
    | true => simp
    | false =>
      simp only [Bool.false_eq_true, if_false]
      split <;> simp

/-! ## Lemmas on the Epoch Generator -/

/-- A `GenEpoch` call never lowers the counter of any job. -/
theorem GenEpoch_mono (c : sqlKVClientImpl) (flt : Option RawErr) (ctx : Context)
    (st : EpochStore) (j : JobID) : st j ≤ (c.GenEpoch flt ctx st).1 j := by
  unfold sqlKVClientImpl.GenEpoch EpochClient.GenEpoch
  cases hc : ctx.cancelled with
  | true => simp
  | false =>
    cases flt with
    | some e => simp
    | none =>
      simp only [Bool.false_eq_true, if_false]
      split_ifs with h
      · exact le_refl _
      · by_cases hj : j = c.jobID
        · subst hj
          simp
        · simp [Function.update, hj]

/-- A sequence of `GenEpoch` calls never lowers the counter of any job. -/
theorem runGenEpochs_mono (calls : List EpochCall) : ∀ (st : EpochStore) (j : JobID),
    st j ≤ runGenEpochs calls st j := by
  induction calls with
  | nil => intro st j; exact le_refl _
  | cons call rest ih =>
    intro st j
    exact le_trans (GenEpoch_mono call.client call.flt call.ctx st j) (ih _ j)

/-- A successful `GenEpoch` call returns the counter it left for its job, one
above the counter it found, within the 64-bit range. -/
theorem GenEpoch_ok (c : sqlKVClientImpl) (flt : Option RawErr) (ctx : Context)
    (st : EpochStore) (v : Int) (h : (c.GenEpoch flt ctx st).2 = Except.ok v) :
    v = st c.jobID + 1 ∧ (c.GenEpoch flt ctx st).1 c.jobID = v ∧ v ≤ maxInt64 := by
  unfold sqlKVClientImpl.GenEpoch EpochClient.GenEpoch at h ⊢
  cases hc : ctx.cancelled with
  | true => simp [hc] at h
  | false =>
    cases flt with
    | some e => simp [hc] at h
    | none =>
      simp only [hc, Bool.false_eq_true, if_false] at h ⊢
      split_ifs at h ⊢ with hmax
      simp only [Except.ok.injEq] at h
      refine ⟨h.symm, ?_, ?_⟩
      · simp [h]
      · rw [← h]
        omega

/-! ## Lemmas on exact gets of absent keys -/

/-- An operation without modifier, of a kind other than put or not, passes the
validity check. -/
theorem CheckValidOp_of_isExact (op : Op) (hx : op.isExact = true) :
    op.CheckValidOp = none := by
  unfold Op.isExact at hx
  simp only [Bool.not_eq_true', Bool.or_eq_false_iff] at hx
  unfold Op.CheckValidOp Op.modifierCount
  simp [hx.1.1, hx.1.2, hx.2]

/-- Method `doGet` on an operation without modifier whose key has no row for
the job: the backend error, record-not-found under a live context, comes back
as an operation failure. -/
theorem doGet_exact_absent (c : sqlKVClientImpl) (ctx : Context) (db : Store) (op : Op)
    (hx : op.isExact = true)
    (habs : ∀ r ∈ db, r.JobID = c.jobID → r.KeyValue.Key ≠ op.KeyBytes) :
    c.doGet ctx db op = Except.error (sqlErrorFromOpFail
      (some (if ctx.cancelled then RawErr.contextCanceled else RawErr.recordNotFound))) := by
  have hv := CheckValidOp_of_isExact op hx
  have hflags := hx
  unfold Op.isExact at hflags
  simp only [Bool.not_eq_true', Bool.or_eq_false_iff] at hflags
  have hnil : ((db.filter (fun r => decide (r.JobID = c.jobID))).filter
      (fun r => decide (r.KeyValue.Key = op.KeyBytes))) = [] := by
    rw [List.filter_filter, List.filter_eq_nil_iff]
    intro r hr
    simp only [Bool.and_eq_true, decide_eq_true_eq, not_and]
    intro hk hj
    exact habs r hr hj hk
  cases hc : ctx.cancelled with
  | true =>
    simp only [sqlKVClientImpl.doGet, hv, hflags.1.1, hflags.1.2, hflags.2, dbFirst, hc,
      Bool.false_eq_true, if_false, if_true]
  | false =>
    simp only [sqlKVClientImpl.doGet, hv, hflags.1.1, hflags.1.2, hflags.2, dbFirst, hc, hnil,
      List.head?_nil, Bool.false_eq_true, if_false]

/-! ## Lemmas on puts that carry modifiers -/

/-- Method `doPut` reads the key and the value of the operation only. -/
theorem doPut_plainPut (c : sqlKVClientImpl) (ctx : Context) (db : Store) (op : Op) :
    c.doPut ctx db (OpPut op.key op.val) = c.doPut ctx db op := rfl

/-- The loop of `Commit` runs a put that carries modifiers as the put without
them. -/
theorem commitLoop_plainPut (c : sqlKVClientImpl) (ctx : Context) (ops : List Op) :
    ∀ (tx : Store) (acc : List ResponseOp),
      commitLoop c ctx (ops.map Op.plainPut) tx acc = commitLoop c ctx ops tx acc := by
  induction ops with
  | nil => intro tx acc; rfl
  | cons op rest ih =>
    intro tx acc
    by_cases hp : op.IsPut = true
    · have hT : op.T = opType.tPut := by simpa [Op.IsPut] using hp
      have hg : op.IsGet = false := by simp [Op.IsGet, hT]
      have hg1 : (OpPut op.key op.val).IsGet = false := rfl
      have hp1 : (OpPut op.key op.val).IsPut = true := rfl
      simp only [List.map_cons, Op.plainPut, hp, if_true, commitLoop, hg, hg1, hp1,
        Bool.false_eq_true, if_false, doPut_plainPut, ih]
    · have hpl : op.plainPut = op := by
        unfold Op.plainPut
        simp only [hp, if_false, Bool.false_eq_true]
      simp only [List.map_cons, hpl, commitLoop, ih]

/-! ## Transaction properties -/

/-- C1 (transaction atomicity): whenever `Commit` returns an error, the table
after the call is the table before the call; no put or delete of the batch
stays applied. -/
theorem commit_error_store_unchanged (flt : Faults) (t : sqlTxn) (db : Store) (e : sqlError)
    (h : (t.Commit flt db).2.2 = Except.error e) : (t.Commit flt db).2.1 = db := by
  unfold sqlTxn.Commit at h ⊢
  cases hE : t.Err with
  | some e1 => simp
  | none =>
    cases hc : t.committed with
    | true => simp
    | false =>
      simp only [hE, hc, Bool.false_eq_true, if_false] at h ⊢
      unfold Transaction at h ⊢
      cases hb : flt.beginErr with
      | some e1 => simp
      | none =>
        simp only [hb] at h ⊢
        cases hl : commitLoop t.impl t.ctx t.ops db [] with
        | error e1 => cases e1 <;> simp
        | ok res =>
          obtain ⟨tx, rs⟩ := res
          simp only [hl] at h ⊢
          cases hm : flt.commitErr with
          | some e1 => simp
          | none => simp [hm] at h

/-- Witness of C1: a put of a new key followed by an exact get of an absent
key; the batch fails and the put is not in the table afterwards. -/
theorem commit_error_store_unchanged_witness :
    (((sqlKVClientImpl.Txn { jobID := "A" } { cancelled := false }).Do
        [OpPut [107, 49] [1], OpGet [107, 50] []]).Commit Faults.none
        [{ JobID := "A", KeyValue := { Key := [97], Value := [0] } }]).2.2
      = Except.error (sqlErrorFromOpFail (some RawErr.recordNotFound)) ∧
    (((sqlKVClientImpl.Txn { jobID := "A" } { cancelled := false }).Do
        [OpPut [107, 49] [1], OpGet [107, 50] []]).Commit Faults.none
        [{ JobID := "A", KeyValue := { Key := [97], Value := [0] } }]).2.1
      = [{ JobID := "A", KeyValue := { Key := [97], Value := [0] } }] :=
  ⟨by decide, commit_error_store_unchanged _ _ _
    (sqlErrorFromOpFail (some RawErr.recordNotFound)) (by decide)⟩

/-- C3 (one response per operation): when `Commit` succeeds, the response list
has as many entries as the accumulated operations, and the response at each
position is tagged with the kind of the operation at that position. -/
theorem commit_responses_match_ops (flt : Faults) (t : sqlTxn) (db : Store) (rsp : TxnResponse)
    (h : (t.Commit flt db).2.2 = Except.ok rsp) :
    rsp.Responses.length = t.ops.length ∧
      ∀ i : Nat, rsp.Responses[i]?.map ResponseOp.kind = t.ops[i]?.map Op.T := by
  have hk := commitLoop_kinds _ _ _ _ _ _ _ (Commit_ok_inv h).2.2
  simp only [List.map_nil, List.nil_append] at hk
  constructor
  · have := congrArg List.length hk
    simpa using this
  · intro i
    have := congrArg (fun l => l[i]?) hk
    simpa [List.getElem?_map] using this

/-- Witness of C3: a committed batch of a put, a get and a delete. -/
theorem commit_responses_match_ops_witness :
    (List.length [ResponseOp.makePutResponseOp {},
        ResponseOp.makeGetResponseOp { Kvs := [{ Key := [97], Value := [7] }] },
        ResponseOp.makeDelResponseOp {}]
      = ((sqlKVClientImpl.Txn { jobID := "A" } { cancelled := false }).Do
          [OpPut [97] [7], OpGet [97] [], OpDelete [97] [OpOption.WithPrefix]]).ops.length) ∧
    ∀ i : Nat, ([ResponseOp.makePutResponseOp {},
        ResponseOp.makeGetResponseOp { Kvs := [{ Key := [97], Value := [7] }] },
        ResponseOp.makeDelResponseOp {}] : List ResponseOp)[i]?.map ResponseOp.kind
      = ((sqlKVClientImpl.Txn { jobID := "A" } { cancelled := false }).Do
          [OpPut [97] [7], OpGet [97] [], OpDelete [97] [OpOption.WithPrefix]]).ops[i]?.map
          Op.T :=
  commit_responses_match_ops Faults.none
    ((sqlKVClientImpl.Txn { jobID := "A" } { cancelled := false }).Do
      [OpPut [97] [7], OpGet [97] [], OpDelete [97] [OpOption.WithPrefix]])
    [] { Responses := [ResponseOp.makePutResponseOp {},
        ResponseOp.makeGetResponseOp { Kvs := [{ Key := [97], Value := [7] }] },
        ResponseOp.makeDelResponseOp {}] } (by decide)

/-- C4 (commit once): on any transaction a caller can produce, after one
`Commit`, whether it succeeded or failed, a second `Commit` returns the
committed-transaction error, leaves the table as the first call left it, and
leaves the pending operations as they were. -/
theorem second_commit_rejected (t : sqlTxn) (h : sqlTxn.Reachable t) (flt1 flt2 : Faults)
    (db : Store) :
    ((t.Commit flt1 db).1.Commit flt2 (t.Commit flt1 db).2.1).2.2
        = Except.error errCommittedTxn ∧
      ((t.Commit flt1 db).1.Commit flt2 (t.Commit flt1 db).2.1).2.1 = (t.Commit flt1 db).2.1 ∧
      ((t.Commit flt1 db).1.Commit flt2 (t.Commit flt1 db).2.1).1.ops = t.ops := by
  have h1 : sqlTxn.Reachable (t.Commit flt1 db).1 := sqlTxn.Reachable.afterCommit flt1 t db h
  have hops : (t.Commit flt1 db).1.ops = t.ops := by
    unfold sqlTxn.Commit
    cases hE : t.Err with
    | some e => simp
    | none =>
      cases hc : t.committed with
      | true => simp
      | false =>
        simp only [Bool.false_eq_true, if_false]
        split <;> simp
  have hcom : (t.Commit flt1 db).1.Err = none → (t.Commit flt1 db).1.committed = true := by
    unfold sqlTxn.Commit
    cases hE : t.Err with
    | some e => simp [hE]
    | none =>
      cases hc : t.committed with
      | true => simp
      | false =>
        simp only [Bool.false_eq_true, if_false]
        split <;> simp
  generalize (t.Commit flt1 db).1 = t1 at h1 hops hcom
  generalize (t.Commit flt1 db).2.1 = db1
  unfold sqlTxn.Commit
  rcases h1.err_inv with h0 | ⟨he, _⟩
  · simp [h0, hcom h0, hops]
  · simp [he, hops]

/-- Witness of C4: a fresh transaction with one put, committed twice. -/
theorem second_commit_rejected_witness :
    ((((sqlKVClientImpl.Txn { jobID := "A" } { cancelled := false }).Do
          [OpPut [97] [1]]).Commit Faults.none []).1.Commit Faults.none
        (((sqlKVClientImpl.Txn { jobID := "A" } { cancelled := false }).Do
          [OpPut [97] [1]]).Commit Faults.none []).2.1).2.2
        = Except.error errCommittedTxn ∧
      ((((sqlKVClientImpl.Txn { jobID := "A" } { cancelled := false }).Do
          [OpPut [97] [1]]).Commit Faults.none []).1.Commit Faults.none
        (((sqlKVClientImpl.Txn { jobID := "A" } { cancelled := false }).Do
          [OpPut [97] [1]]).Commit Faults.none []).2.1).2.1
        = (((sqlKVClientImpl.Txn { jobID := "A" } { cancelled := false }).Do
          [OpPut [97] [1]]).Commit Faults.none []).2.1 ∧
      ((((sqlKVClientImpl.Txn { jobID := "A" } { cancelled := false }).Do
          [OpPut [97] [1]]).Commit Faults.none []).1.Commit Faults.none
        (((sqlKVClientImpl.Txn { jobID := "A" } { cancelled := false }).Do
          [OpPut [97] [1]]).Commit Faults.none []).2.1).1.ops
        = ((sqlKVClientImpl.Txn { jobID := "A" } { cancelled := false }).Do
          [OpPut [97] [1]]).ops :=
  second_commit_rejected _
    (sqlTxn.Reachable.afterDo _ _ (sqlTxn.Reachable.fresh { jobID := "A" } { cancelled := false }))
    Faults.none Faults.none []

/-- C2 (commit replays the standalone calls in order): for an open transaction
whose pending operations are those of a request list, a successful `Commit`
leaves the table and returns the responses that the standalone `Get`, `Put`
and `Delete` give when called one after another in that order on the same
initial table; and when those standalone calls all succeed, `Commit` on a
backend that injects no failure succeeds with that table and those responses. -/
theorem commit_refines_standalone (t : sqlTxn) (reqs : List Request) (db : Store)
    (hops : t.ops = reqs.map Request.toOp) (hE : t.Err = none) (hc : t.committed = false) :
    (∀ (flt : Faults) (rsp : TxnResponse), (t.Commit flt db).2.2 = Except.ok rsp →
        standaloneRun t.impl t.ctx reqs db
          = Except.ok ((t.Commit flt db).2.1, rsp.Responses)) ∧
      (∀ (db1 : Store) (rsps : List ResponseOp),
        standaloneRun t.impl t.ctx reqs db = Except.ok (db1, rsps) →
        (t.Commit Faults.none db).2 = (db1, Except.ok { Responses := rsps })) := by
  have hloop := commitLoop_eq_standaloneRun t.impl t.ctx reqs db []
  rw [← hops] at hloop
  constructor
  · intro flt rsp h
    have hinv := (Commit_ok_inv h).2.2
    rw [hloop] at hinv
    cases hs : standaloneRun t.impl t.ctx reqs db with
    | error e => simp [hs] at hinv
    | ok res =>
      obtain ⟨db1, rsps⟩ := res
      simp only [hs, List.nil_append, Except.ok.injEq, Prod.mk.injEq] at hinv
      rw [hinv.1, hinv.2]
  · intro db1 rsps hs
    apply Commit_of_loop_ok hE hc
    rw [hloop, hs]
    simp

/-- Witness of C2: a put, an exact get of the key just put, and a prefix
delete, on a table that already holds two rows. -/
theorem commit_refines_standalone_witness :
    (((sqlKVClientImpl.Txn { jobID := "A" } { cancelled := false }).Do
        (List.map Request.toOp [Request.put [97] [7], Request.get [97] [],
          Request.delete [97] [OpOption.WithPrefix]])).Commit Faults.none
        [{ JobID := "A", KeyValue := { Key := [98], Value := [1] } },
         { JobID := "A", KeyValue := { Key := [97, 98], Value := [4] } }]).2
      = ([{ JobID := "A", KeyValue := { Key := [98], Value := [1] } }],
          Except.ok { Responses := [ResponseOp.makePutResponseOp {},
            ResponseOp.makeGetResponseOp { Kvs := [{ Key := [97], Value := [7] }] },
            ResponseOp.makeDelResponseOp {}] }) ∧
    standaloneRun { jobID := "A" } { cancelled := false }
        [Request.put [97] [7], Request.get [97] [], Request.delete [97] [OpOption.WithPrefix]]
        [{ JobID := "A", KeyValue := { Key := [98], Value := [1] } },
         { JobID := "A", KeyValue := { Key := [97, 98], Value := [4] } }]
      = Except.ok
        ((((sqlKVClientImpl.Txn { jobID := "A" } { cancelled := false }).Do
          (List.map Request.toOp [Request.put [97] [7], Request.get [97] [],
            Request.delete [97] [OpOption.WithPrefix]])).Commit Faults.none
          [{ JobID := "A", KeyValue := { Key := [98], Value := [1] } },
           { JobID := "A", KeyValue := { Key := [97, 98], Value := [4] } }]).2.1,
         [ResponseOp.makePutResponseOp {},
            ResponseOp.makeGetResponseOp { Kvs := [{ Key := [97], Value := [7] }] },
            ResponseOp.makeDelResponseOp {}]) :=
  ⟨(commit_refines_standalone
      ((sqlKVClientImpl.Txn { jobID := "A" } { cancelled := false }).Do
        (List.map Request.toOp [Request.put [97] [7], Request.get [97] [],
          Request.delete [97] [OpOption.WithPrefix]]))
      [Request.put [97] [7], Request.get [97] [], Request.delete [97] [OpOption.WithPrefix]]
      [{ JobID := "A", KeyValue := { Key := [98], Value := [1] } },
       { JobID := "A", KeyValue := { Key := [97, 98], Value := [4] } }]
      (by decide) (by decide) (by decide)).2 _ _ (by decide),
   (commit_refines_standalone
      ((sqlKVClientImpl.Txn { jobID := "A" } { cancelled := false }).Do
        (List.map Request.toOp [Request.put [97] [7], Request.get [97] [],
          Request.delete [97] [OpOption.WithPrefix]]))
      [Request.put [97] [7], Request.get [97] [], Request.delete [97] [OpOption.WithPrefix]]
      [{ JobID := "A", KeyValue := { Key := [98], Value := [1] } },
       { JobID := "A", KeyValue := { Key := [97, 98], Value := [4] } }]
      (by decide) (by decide) (by decide)).1 Faults.none
      { Responses := [ResponseOp.makePutResponseOp {},
            ResponseOp.makeGetResponseOp { Kvs := [{ Key := [97], Value := [7] }] },
            ResponseOp.makeDelResponseOp {}] } (by decide)⟩

/-! ## Client properties -/

/-- C5 (upsert): with a live context, `Put(k, v1)` then `Put(k, v2)` both
succeed, the second put adds no row, and a following exact `Get(k)` returns
exactly one item, with key `k` and value `v2`. -/
theorem put_put_get (c : sqlKVClientImpl) (ctx : Context) (hlive : ctx.cancelled = false)
    (db : Store) (k v1 v2 : Bytes) :
    ∃ db1 db2 : Store,
      c.Put ctx db k v1 = Except.ok (db1, {}) ∧
      c.Put ctx db1 k v2 = Except.ok (db2, {}) ∧
      db2.length = db1.length ∧
      c.Get ctx db2 k [] = Except.ok { Kvs := [{ Key := k, Value := v2 }] } := by
  refine ⟨upsert db { JobID := c.jobID, KeyValue := { Key := k, Value := v1 } },
    upsert (upsert db { JobID := c.jobID, KeyValue := { Key := k, Value := v1 } })
      { JobID := c.jobID, KeyValue := { Key := k, Value := v2 } }, ?_, ?_, ?_, ?_⟩
  · simp [sqlKVClientImpl.Put, sqlKVClientImpl.doPut, dbCreateOnConflictUpdateAll, hlive, OpPut,
      Op.KeyBytes, Op.ValueBytes]
  · simp [sqlKVClientImpl.Put, sqlKVClientImpl.doPut, dbCreateOnConflictUpdateAll, hlive, OpPut,
      Op.KeyBytes, Op.ValueBytes]
  · apply upsert_length_of_mem
    exact ⟨_, mem_upsert _ db, rfl, rfl⟩
  · have hf := upsert_first { JobID := c.jobID, KeyValue := { Key := k, Value := v2 } }
      (upsert db { JobID := c.jobID, KeyValue := { Key := k, Value := v1 } })
    simp only at hf
    have hv : (OpGet k []).CheckValidOp = none := by
      simp [OpGet, Op.ApplyOpts, Op.CheckValidOp, Op.modifierCount, Op.IsOptsWithRange,
        Op.IsOptsWithPrefix, Op.IsOptsWithFromKey, Op.IsPut]
    have hr : (OpGet k []).IsOptsWithRange = false := rfl
    have hp : (OpGet k []).IsOptsWithPrefix = false := rfl
    have hfk : (OpGet k []).IsOptsWithFromKey = false := rfl
    have hkey : (OpGet k []).KeyBytes = k := rfl
    simp only [sqlKVClientImpl.Get, sqlKVClientImpl.doGet, hv, hr, hp, hfk, hkey, dbFirst, hlive,
      hf, Bool.false_eq_true, if_false]

/-- Witness of C5: the key `a` written twice into a table that already holds
it for the same job and for another job. -/
theorem put_put_get_witness :
    ∃ db1 db2 : Store,
      sqlKVClientImpl.Put { jobID := "A" } { cancelled := false }
        [{ JobID := "B", KeyValue := { Key := [97], Value := [0] } },
         { JobID := "A", KeyValue := { Key := [97], Value := [0] } }] [97] [1]
        = Except.ok (db1, {}) ∧
      sqlKVClientImpl.Put { jobID := "A" } { cancelled := false } db1 [97] [2]
        = Except.ok (db2, {}) ∧
      db2.length = db1.length ∧
      sqlKVClientImpl.Get { jobID := "A" } { cancelled := false } db2 [97] []
        = Except.ok { Kvs := [{ Key := [97], Value := [2] }] } :=
  put_put_get { jobID := "A" } { cancelled := false } rfl
    [{ JobID := "B", KeyValue := { Key := [97], Value := [0] } },
     { JobID := "A", KeyValue := { Key := [97], Value := [0] } }] [97] [1] [2]

/-- C6 (tenant isolation): for clients of two distinct jobs on one table, no
`Put`, `Delete` or `Commit` issued through the first client changes the result
of any `Get` (whatever its key and options) issued through the second. -/
theorem tenant_isolation (cA cB : sqlKVClientImpl) (hAB : cA.jobID ≠ cB.jobID) (db : Store)
    (ctx : Context) (key : Bytes) (opts : List OpOption) :
    (∀ (ctxA : Context) (k v : Bytes) (db1 : Store) (rsp : PutResponse),
        cA.Put ctxA db k v = Except.ok (db1, rsp) →
        cB.Get ctx db1 key opts = cB.Get ctx db key opts) ∧
      (∀ (ctxA : Context) (k : Bytes) (o : List OpOption) (db1 : Store) (rsp : DeleteResponse),
        cA.Delete ctxA db k o = Except.ok (db1, rsp) →
        cB.Get ctx db1 key opts = cB.Get ctx db key opts) ∧
      (∀ (flt : Faults) (t : sqlTxn), t.impl = cA →
        cB.Get ctx (t.Commit flt db).2.1 key opts = cB.Get ctx db key opts) := by
  refine ⟨?_, ?_, ?_⟩
  · intro ctxA k v db1 rsp h
    exact doGet_congr cB ctx db db1 _ (doPut_other_job cA _ hAB ctxA db db1 _ rsp h)
  · intro ctxA k o db1 rsp h
    exact doGet_congr cB ctx db db1 _ (doDelete_other_job cA _ hAB ctxA db db1 _ rsp h)
  · intro flt t ht
    subst ht
    exact doGet_congr cB ctx db _ _ (Commit_other_job flt t _ hAB db)

/-- Witness of C6: job `A` overwrites the key `a`, which job `B` also holds;
the exact read of job `B` is the same before and after. -/
theorem tenant_isolation_witness :
    sqlKVClientImpl.Get { jobID := "B" } { cancelled := false }
        [{ JobID := "B", KeyValue := { Key := [97], Value := [3] } },
         { JobID := "A", KeyValue := { Key := [97], Value := [9] } }] [97] []
      = sqlKVClientImpl.Get { jobID := "B" } { cancelled := false }
        [{ JobID := "B", KeyValue := { Key := [97], Value := [3] } },
         { JobID := "A", KeyValue := { Key := [97], Value := [1] } }] [97] [] :=
  (tenant_isolation { jobID := "A" } { jobID := "B" } (by decide)
    [{ JobID := "B", KeyValue := { Key := [97], Value := [3] } },
     { JobID := "A", KeyValue := { Key := [97], Value := [1] } }]
    { cancelled := false } [97] []).1 { cancelled := false } [97] [9]
    [{ JobID := "B", KeyValue := { Key := [97], Value := [3] } },
     { JobID := "A", KeyValue := { Key := [97], Value := [9] } }] {} (by decide)

/-- C7 (range read): with a live context, `Get(k, Range(e))` succeeds and
returns exactly the rows of the client's job whose key `x` satisfies
`k <= x < e` in the lexicographic order over raw bytes, in storage order; the
result is the empty list when `e <= k`. -/
theorem get_range_exact (c : sqlKVClientImpl) (ctx : Context) (hlive : ctx.cancelled = false)
    (db : Store) (k e : Bytes) :
    c.Get ctx db k [OpOption.WithRange e] = Except.ok
        { Kvs := List.map MetaKV.KeyValue
            (db.filter (fun r => decide
              (r.JobID = c.jobID ∧ lexLe k r.KeyValue.Key ∧ lexLt r.KeyValue.Key e))) } ∧
      (lexLe e k → c.Get ctx db k [OpOption.WithRange e] = Except.ok { Kvs := [] }) := by
  have hmain : c.Get ctx db k [OpOption.WithRange e] = Except.ok
      { Kvs := List.map MetaKV.KeyValue
          (db.filter (fun r => decide
            (r.JobID = c.jobID ∧ lexLe k r.KeyValue.Key ∧ lexLt r.KeyValue.Key e))) } := by
    rw [Get_range_eq c ctx hlive, List.filter_filter]
    congr 3
    apply List.filter_congr
    intro r _
    rw [Bool.eq_iff_iff]
    simp only [Bool.and_eq_true, decide_eq_true_eq, bytesGe_iff, bytesLt_iff]
    tauto
  refine ⟨hmain, ?_⟩
  intro hek
  rw [hmain]
  congr 2
  rw [List.map_eq_nil_iff, List.filter_eq_nil_iff]
  intro r _
  simp only [decide_eq_true_eq, not_and]
  intro _ hkx hxe
  have hxk : lexLt r.KeyValue.Key k := by
    rcases hek with rfl | hek
    · exact hxe
    · exact lexLt_trans hxe hek
  rcases hkx with rfl | hkx
  · exact lexLt_irrefl _ hxk
  · exact lexLt_irrefl _ (lexLt_trans hkx hxk)

/-- Witness of C7: the range from `a` to `b` over the keys `b`, `a`, `ab` of
job `A` and a key `a` of job `B`. -/
theorem get_range_exact_witness :
    sqlKVClientImpl.Get { jobID := "A" } { cancelled := false }
        [{ JobID := "A", KeyValue := { Key := [98], Value := [1] } },
         { JobID := "A", KeyValue := { Key := [97], Value := [2] } },
         { JobID := "B", KeyValue := { Key := [97], Value := [3] } },
         { JobID := "A", KeyValue := { Key := [97, 98], Value := [4] } }]
        [97] [OpOption.WithRange [98]]
      = Except.ok { Kvs := [{ Key := [97], Value := [2] }, { Key := [97, 98], Value := [4] }] } :=
  ((get_range_exact { jobID := "A" } { cancelled := false } rfl
    [{ JobID := "A", KeyValue := { Key := [98], Value := [1] } },
     { JobID := "A", KeyValue := { Key := [97], Value := [2] } },
     { JobID := "B", KeyValue := { Key := [97], Value := [3] } },
     { JobID := "A", KeyValue := { Key := [97, 98], Value := [4] } }]
    [97] [98]).1).trans (by decide)

/-- C8, the code at the failing input: the prefix read for the key `a_`
returns the row of key `ab`, and the prefix read for the key `a%` returns the
row of key `ab` too, although neither key is a byte prefix of `ab`. -/
theorem get_prefix_metachar :
    sqlKVClientImpl.Get { jobID := "A" } { cancelled := false }
        [{ JobID := "A", KeyValue := { Key := [97, 98], Value := [1] } }]
        [97, underscoreByte] [OpOption.WithPrefix]
      = Except.ok { Kvs := [{ Key := [97, 98], Value := [1] }] } ∧
    sqlKVClientImpl.Get { jobID := "A" } { cancelled := false }
        [{ JobID := "A", KeyValue := { Key := [97, 98], Value := [1] } }]
        [97, pctByte] [OpOption.WithPrefix]
      = Except.ok { Kvs := [{ Key := [97, 98], Value := [1] }] } ∧
    ¬ ([97, underscoreByte] <+: ([97, 98] : Bytes)) ∧
    ¬ ([97, pctByte] <+: ([97, 98] : Bytes)) := by
  refine ⟨by decide, by decide, by decide, by decide⟩

/-- Prefix read for a key without pattern metacharacters: with a live context
it returns exactly the rows of the client's job whose key starts with the
given key, in storage order. -/
theorem get_prefix_plain (c : sqlKVClientImpl) (ctx : Context) (hlive : ctx.cancelled = false)
    (db : Store) (p : Bytes) (hp : ∀ b ∈ p, isMetaByte b = false) :
    c.Get ctx db p [OpOption.WithPrefix] = Except.ok
      { Kvs := List.map MetaKV.KeyValue
          (db.filter (fun r => decide (r.JobID = c.jobID) && p.isPrefixOf r.KeyValue.Key)) } := by
  rw [Get_prefix_eq c ctx hlive, List.filter_filter]
  congr 3
  apply List.filter_congr
  intro r _
  rw [likeMatch_of_plain_key p _ hp, Bool.and_comm]

/-- C9 (from-key read): with a live context, `Get(k, FromKey)` succeeds and
returns exactly the rows of the client's job whose key is greater than or
equal to `k` in the lexicographic order over raw bytes, in storage order. -/
theorem get_fromKey_exact (c : sqlKVClientImpl) (ctx : Context) (hlive : ctx.cancelled = false)
    (db : Store) (k : Bytes) :
    c.Get ctx db k [OpOption.WithFromKey] = Except.ok
      { Kvs := List.map MetaKV.KeyValue
          (db.filter (fun r => decide (r.JobID = c.jobID ∧ lexLe k r.KeyValue.Key))) } := by
  rw [Get_fromKey_eq c ctx hlive, List.filter_filter]
  congr 3
  apply List.filter_congr
  intro r _
  rw [Bool.eq_iff_iff]
  simp only [Bool.and_eq_true, decide_eq_true_eq, bytesGe_iff]
  tauto

/-- Witness of C9: the read from key `ab` on over the keys `b`, `a`, `ab` of
job `A` and a key `c` of job `B`. -/
theorem get_fromKey_exact_witness :
    sqlKVClientImpl.Get { jobID := "A" } { cancelled := false }
        [{ JobID := "A", KeyValue := { Key := [98], Value := [1] } },
         { JobID := "A", KeyValue := { Key := [97], Value := [2] } },
         { JobID := "B", KeyValue := { Key := [99], Value := [3] } },
         { JobID := "A", KeyValue := { Key := [97, 98], Value := [4] } }]
        [97, 98] [OpOption.WithFromKey]
      = Except.ok { Kvs := [{ Key := [98], Value := [1] }, { Key := [97, 98], Value := [4] }] } :=
  (get_fromKey_exact { jobID := "A" } { cancelled := false } rfl
    [{ JobID := "A", KeyValue := { Key := [98], Value := [1] } },
     { JobID := "A", KeyValue := { Key := [97], Value := [2] } },
     { JobID := "B", KeyValue := { Key := [99], Value := [3] } },
     { JobID := "A", KeyValue := { Key := [97, 98], Value := [4] } }]
    [97, 98]).trans (by decide)

/-- C10, counterexample: a table that holds the row of key `b` before the row
of key `a`.  The query of the from-key read carries no ordering and the rows
are copied in the order received, so the read from key `a` on returns `b`
before `a`, which is not ascending. -/
theorem get_order_counterexample :
    sqlKVClientImpl.Get { jobID := "A" } { cancelled := false }
        [{ JobID := "A", KeyValue := { Key := [98], Value := [1] } },
         { JobID := "A", KeyValue := { Key := [97], Value := [2] } }] [97] [OpOption.WithFromKey]
      = Except.ok { Kvs := [{ Key := [98], Value := [1] }, { Key := [97], Value := [2] }] } ∧
    ¬ List.Pairwise (fun a b : KeyValue => lexLt a.Key b.Key)
        [{ Key := [98], Value := [1] }, { Key := [97], Value := [2] }] := by
  refine ⟨by decide, ?_⟩
  intro h
  have h1 : lexLt [98] [97] := by simpa using h
  exact absurd h1 (by decide)

/-- C10 as amended (result order): a range, prefix or from-key `Get` with a
live context succeeds and returns the selected rows of the client's job in the
order in which the table holds them, without sorting; the returned items are
in strictly ascending key order exactly when the table holds the selected rows
in strictly ascending key order, in particular when it holds the rows of the
client's job in that order. -/
theorem get_sorted_of_sorted_store (c : sqlKVClientImpl) (ctx : Context)
    (hlive : ctx.cancelled = false) (db : Store) (key : Bytes) (opts : List OpOption)
    (hm : (∃ e, opts = [OpOption.WithRange e]) ∨ opts = [OpOption.WithPrefix]
      ∨ opts = [OpOption.WithFromKey]) :
    ∃ (rsp : GetResponse) (sel : MetaKV → Bool), c.Get ctx db key opts = Except.ok rsp ∧
      rsp.Kvs = List.map MetaKV.KeyValue
        ((db.filter (fun r => decide (r.JobID = c.jobID))).filter sel) ∧
      (rsp.Kvs.Pairwise (fun a b => lexLt a.Key b.Key) ↔
        ((db.filter (fun r => decide (r.JobID = c.jobID))).filter sel).Pairwise
          (fun r s => lexLt r.KeyValue.Key s.KeyValue.Key)) ∧
      ((db.filter (fun r => decide (r.JobID = c.jobID))).Pairwise
          (fun r s => lexLt r.KeyValue.Key s.KeyValue.Key) →
        rsp.Kvs.Pairwise (fun a b => lexLt a.Key b.Key)) := by
  have key_fact : ∀ sel : MetaKV → Bool,
      ((List.map MetaKV.KeyValue
          ((db.filter (fun r => decide (r.JobID = c.jobID))).filter sel)).Pairwise
          (fun a b => lexLt a.Key b.Key) ↔
        ((db.filter (fun r => decide (r.JobID = c.jobID))).filter sel).Pairwise
          (fun r s => lexLt r.KeyValue.Key s.KeyValue.Key)) ∧
      ((db.filter (fun r => decide (r.JobID = c.jobID))).Pairwise
          (fun r s => lexLt r.KeyValue.Key s.KeyValue.Key) →
        (List.map MetaKV.KeyValue
          ((db.filter (fun r => decide (r.JobID = c.jobID))).filter sel)).Pairwise
          (fun a b => lexLt a.Key b.Key)) := by
    intro sel
    constructor
    · rw [List.pairwise_map]
    · intro hs
      rw [List.pairwise_map]
      exact hs.sublist (List.filter_sublist _)
  rcases hm with ⟨e, rfl⟩ | rfl | rfl
  · exact ⟨_, _, Get_range_eq c ctx hlive db key e, rfl, key_fact _⟩
  · exact ⟨_, _, Get_prefix_eq c ctx hlive db key, rfl, key_fact _⟩
  · exact ⟨_, _, Get_fromKey_eq c ctx hlive db key, rfl, key_fact _⟩

/-- Witness of C10 as amended: a table that holds the keys `a`, `ab`, `b`, `c`
in that order; `Range(a, b)` gives `[a, ab]`, `Prefix(a)` gives `[a, ab]` and
`FromKey(b)` gives `[b, c]`. -/
theorem get_sorted_of_sorted_store_witness :
    (∃ (rsp : GetResponse) (sel : MetaKV → Bool),
      sqlKVClientImpl.Get { jobID := "A" } { cancelled := false }
          [{ JobID := "A", KeyValue := { Key := [97], Value := [1] } },
           { JobID := "A", KeyValue := { Key := [97, 98], Value := [2] } },
           { JobID := "A", KeyValue := { Key := [98], Value := [3] } },
           { JobID := "A", KeyValue := { Key := [99], Value := [4] } }]
          [98] [OpOption.WithFromKey] = Except.ok rsp ∧
      rsp.Kvs = List.map MetaKV.KeyValue
        ((List.filter (fun r : MetaKV => decide (r.JobID = "A"))
          [{ JobID := "A", KeyValue := { Key := [97], Value := [1] } },
           { JobID := "A", KeyValue := { Key := [97, 98], Value := [2] } },
           { JobID := "A", KeyValue := { Key := [98], Value := [3] } },
           { JobID := "A", KeyValue := { Key := [99], Value := [4] } }]).filter sel) ∧
      (rsp.Kvs.Pairwise (fun a b => lexLt a.Key b.Key) ↔
        ((List.filter (fun r : MetaKV => decide (r.JobID = "A"))
          [{ JobID := "A", KeyValue := { Key := [97], Value := [1] } },
           { JobID := "A", KeyValue := { Key := [97, 98], Value := [2] } },
           { JobID := "A", KeyValue := { Key := [98], Value := [3] } },
           { JobID := "A", KeyValue := { Key := [99], Value := [4] } }]).filter sel).Pairwise
          (fun r s : MetaKV => lexLt r.KeyValue.Key s.KeyValue.Key)) ∧
      ((List.filter (fun r : MetaKV => decide (r.JobID = "A"))
          [{ JobID := "A", KeyValue := { Key := [97], Value := [1] } },
           { JobID := "A", KeyValue := { Key := [97, 98], Value := [2] } },
           { JobID := "A", KeyValue := { Key := [98], Value := [3] } },
           { JobID := "A", KeyValue := { Key := [99], Value := [4] } }]).Pairwise
          (fun r s : MetaKV => lexLt r.KeyValue.Key s.KeyValue.Key) →
        rsp.Kvs.Pairwise (fun a b => lexLt a.Key b.Key))) ∧
    sqlKVClientImpl.Get { jobID := "A" } { cancelled := false }
        [{ JobID := "A", KeyValue := { Key := [97], Value := [1] } },
         { JobID := "A", KeyValue := { Key := [97, 98], Value := [2] } },
         { JobID := "A", KeyValue := { Key := [98], Value := [3] } },
         { JobID := "A", KeyValue := { Key := [99], Value := [4] } }]
        [97] [OpOption.WithRange [98]]
      = Except.ok { Kvs := [{ Key := [97], Value := [1] }, { Key := [97, 98], Value := [2] }] } ∧
    sqlKVClientImpl.Get { jobID := "A" } { cancelled := false }
        [{ JobID := "A", KeyValue := { Key := [97], Value := [1] } },
         { JobID := "A", KeyValue := { Key := [97, 98], Value := [2] } },
         { JobID := "A", KeyValue := { Key := [98], Value := [3] } },
         { JobID := "A", KeyValue := { Key := [99], Value := [4] } }]
        [97] [OpOption.WithPrefix]
      = Except.ok { Kvs := [{ Key := [97], Value := [1] }, { Key := [97, 98], Value := [2] }] } ∧
    sqlKVClientImpl.Get { jobID := "A" } { cancelled := false }
        [{ JobID := "A", KeyValue := { Key := [97], Value := [1] } },
         { JobID := "A", KeyValue := { Key := [97, 98], Value := [2] } },
         { JobID := "A", KeyValue := { Key := [98], Value := [3] } },
         { JobID := "A", KeyValue := { Key := [99], Value := [4] } }]
        [98] [OpOption.WithFromKey]
      = Except.ok { Kvs := [{ Key := [98], Value := [3] }, { Key := [99], Value := [4] }] } ∧
    List.Pairwise (fun r s : MetaKV => lexLt r.KeyValue.Key s.KeyValue.Key)
      (List.filter (fun r : MetaKV => decide (r.JobID = "A"))
        [{ JobID := "A", KeyValue := { Key := [97], Value := [1] } },
         { JobID := "A", KeyValue := { Key := [97, 98], Value := [2] } },
         { JobID := "A", KeyValue := { Key := [98], Value := [3] } },
         { JobID := "A", KeyValue := { Key := [99], Value := [4] } }]) :=
  ⟨get_sorted_of_sorted_store { jobID := "A" } { cancelled := false } rfl
    [{ JobID := "A", KeyValue := { Key := [97], Value := [1] } },
     { JobID := "A", KeyValue := { Key := [97, 98], Value := [2] } },
     { JobID := "A", KeyValue := { Key := [98], Value := [3] } },
     { JobID := "A", KeyValue := { Key := [99], Value := [4] } }]
    [98] [OpOption.WithFromKey] (Or.inr (Or.inr rfl)),
   by decide, by decide, by decide, by decide⟩

/-- C11, counterexample: the exact get of the key `a` on an empty table returns
the error built from the backend's record-not-found error, whose kind is
operation failure, not the not-found kind. -/
theorem get_absent_counterexample :
    sqlKVClientImpl.Get { jobID := "A" } { cancelled := false } [] [97] []
      = Except.error (sqlErrorFromOpFail (some RawErr.recordNotFound)) ∧
    (sqlErrorFromOpFail (some RawErr.recordNotFound)).displayed
      = MetaErr.OpFail (some RawErr.recordNotFound) ∧
    (sqlErrorFromOpFail (some RawErr.recordNotFound)).displayed ≠ MetaErr.NotFound := by
  refine ⟨by decide, by decide, by decide⟩

/-- C11 as amended (absent key): with a live context, an exact `Get(k)` of a
key with no row for the client's job returns an error, not a successful empty
result; the error is the operation failure that wraps the backend's
record-not-found error. -/
theorem get_absent_opFail (c : sqlKVClientImpl) (ctx : Context) (hlive : ctx.cancelled = false)
    (db : Store) (k : Bytes)
    (habs : ∀ r ∈ db, r.JobID = c.jobID → r.KeyValue.Key ≠ k) :
    c.Get ctx db k [] = Except.error
      { displayed := MetaErr.OpFail (some RawErr.recordNotFound),
        cause := some RawErr.recordNotFound } := by
  have hv : (OpGet k []).CheckValidOp = none := by
    simp [OpGet, Op.ApplyOpts, Op.CheckValidOp, Op.modifierCount, Op.IsOptsWithRange,
      Op.IsOptsWithPrefix, Op.IsOptsWithFromKey, Op.IsPut]
  have hr : (OpGet k []).IsOptsWithRange = false := rfl
  have hp : (OpGet k []).IsOptsWithPrefix = false := rfl
  have hfk : (OpGet k []).IsOptsWithFromKey = false := rfl
  have hkey : (OpGet k []).KeyBytes = k := rfl
  have hnil : ((db.filter (fun r => decide (r.JobID = c.jobID))).filter
      (fun r => decide (r.KeyValue.Key = k))) = [] := by
    rw [List.filter_filter, List.filter_eq_nil_iff]
    intro r hr
    simp only [Bool.and_eq_true, decide_eq_true_eq, not_and]
    intro hk hj
    exact habs r hr hj hk
  simp only [sqlKVClientImpl.Get, sqlKVClientImpl.doGet, hv, hr, hp, hfk, hkey, dbFirst, hlive,
    hnil, List.head?_nil, Bool.false_eq_true, if_false, sqlErrorFromOpFail]

/-- Witness of C11 as amended: the key `b` is read for job `A` on a table
that holds `a` for job `A` and `b` for job `B` only. -/
theorem get_absent_opFail_witness :
    sqlKVClientImpl.Get { jobID := "A" } { cancelled := false }
        [{ JobID := "A", KeyValue := { Key := [97], Value := [1] } },
         { JobID := "B", KeyValue := { Key := [98], Value := [2] } }] [98] []
      = Except.error
        { displayed := MetaErr.OpFail (some RawErr.recordNotFound),
          cause := some RawErr.recordNotFound } :=
  get_absent_opFail { jobID := "A" } { cancelled := false } rfl
    [{ JobID := "A", KeyValue := { Key := [97], Value := [1] } },
     { JobID := "B", KeyValue := { Key := [98], Value := [2] } }] [98] (by decide)

/-- C12 (option validation comes first): a get or delete operation that the
validity check rejects returns the invalid-option error wrapping the check's
error, whatever the table and the context are, so nothing is read or written;
the failed delete yields no new table. -/
theorem invalid_options_rejected (c : sqlKVClientImpl) (op : Op) (err : RawErr)
    (h : op.CheckValidOp = some err) (ctx : Context) (db : Store) :
    c.doGet ctx db op
        = Except.error { displayed := MetaErr.OptionInvalid (some err), cause := none } ∧
      c.doDelete ctx db op
        = Except.error { displayed := MetaErr.OptionInvalid (some err), cause := none } ∧
      (∀ (ctx1 : Context) (db1 : Store),
        c.doGet ctx1 db1 op = c.doGet ctx db op ∧
          c.doDelete ctx1 db1 op = c.doDelete ctx db op) := by
  have hg : ∀ (ctx1 : Context) (db1 : Store), c.doGet ctx1 db1 op
      = Except.error { displayed := MetaErr.OptionInvalid (some err), cause := none } := by
    intro ctx1 db1
    simp only [sqlKVClientImpl.doGet, h]
  have hd : ∀ (ctx1 : Context) (db1 : Store), c.doDelete ctx1 db1 op
      = Except.error { displayed := MetaErr.OptionInvalid (some err), cause := none } := by
    intro ctx1 db1
    simp only [sqlKVClientImpl.doDelete, h]
  refine ⟨hg ctx db, hd ctx db, ?_⟩
  intro ctx1 db1
  rw [hg ctx1 db1, hg ctx db, hd ctx1 db1, hd ctx db]
  exact ⟨rfl, rfl⟩

/-- Witness of C12: a get and a delete of the key `a` with both the prefix and
the from-key modifier, on a table that holds the key. -/
theorem invalid_options_rejected_witness :
    sqlKVClientImpl.Get { jobID := "A" } { cancelled := false }
        [{ JobID := "A", KeyValue := { Key := [97], Value := [1] } }] [97]
        [OpOption.WithPrefix, OpOption.WithFromKey]
      = Except.error
        { displayed := MetaErr.OptionInvalid (some RawErr.optionConflict), cause := none } ∧
    sqlKVClientImpl.Delete { jobID := "A" } { cancelled := false }
        [{ JobID := "A", KeyValue := { Key := [97], Value := [1] } }] [97]
        [OpOption.WithPrefix, OpOption.WithFromKey]
      = Except.error
        { displayed := MetaErr.OptionInvalid (some RawErr.optionConflict), cause := none } :=
  ⟨(invalid_options_rejected { jobID := "A" }
      (OpGet [97] [OpOption.WithPrefix, OpOption.WithFromKey]) RawErr.optionConflict (by decide)
      { cancelled := false } [{ JobID := "A", KeyValue := { Key := [97], Value := [1] } }]).1,
   (invalid_options_rejected { jobID := "A" }
      (OpDelete [97] [OpOption.WithPrefix, OpOption.WithFromKey]) RawErr.optionConflict
      (by decide)
      { cancelled := false } [{ JobID := "A", KeyValue := { Key := [97], Value := [1] } }]).2.1⟩

/-- C13, the code at the failing input: a put of key `a` built with the prefix
option, which the validity check rejects, is committed on an empty table;
`Commit` succeeds and the row is written. -/
theorem put_with_modifier_commits :
    (((sqlKVClientImpl.Txn { jobID := "A" } { cancelled := false }).Do
        [(OpPut [97] [1]).ApplyOpts [OpOption.WithPrefix]]).Commit Faults.none []).2
      = ([{ JobID := "A", KeyValue := { Key := [97], Value := [1] } }],
          Except.ok { Responses := [ResponseOp.makePutResponseOp {}] }) ∧
    ((OpPut [97] [1]).ApplyOpts [OpOption.WithPrefix]).IsOptsWithPrefix = true ∧
    ((OpPut [97] [1]).ApplyOpts [OpOption.WithPrefix]).CheckValidOp
      = some RawErr.optionConflict := by
  refine ⟨by decide, by decide, by decide⟩

/-- A put never consults a modifier: `Commit` gives the same table and the same
result when every put of the pending list is replaced by the put `OpPut`
builds from its key and value, and with a live context a put operation,
whatever modifiers it carries, is the single-key upsert of its key and value
and succeeds. -/
theorem put_modifiers_ignored (flt : Faults) (t : sqlTxn) (db : Store) :
    (sqlTxn.Commit flt { t with ops := t.ops.map Op.plainPut } db).2 = (t.Commit flt db).2 ∧
      (∀ (c : sqlKVClientImpl) (ctx : Context) (op : Op), ctx.cancelled = false →
        c.doPut ctx db op = Except.ok
          (upsert db { JobID := c.jobID, KeyValue := { Key := op.key, Value := op.val } },
            {})) := by
  constructor
  · unfold sqlTxn.Commit
    simp only [commitLoop_plainPut]
    cases hE : t.Err with
    | some e => rfl
    | none =>
      cases hc : t.committed with
      | true => rfl
      | false =>
        simp only [Bool.false_eq_true, if_false]
        split <;> rename_i heq <;> simp only [heq]
  · intro c ctx op hlive
    simp [sqlKVClientImpl.doPut, dbCreateOnConflictUpdateAll, hlive, Op.KeyBytes, Op.ValueBytes]

/-- The put of key `a` built with the prefix option, committed on an empty
table and run on its own, behaves as the put without the option. -/
theorem put_modifiers_ignored_witness :
    (sqlTxn.Commit Faults.none
        { (sqlKVClientImpl.Txn { jobID := "A" } { cancelled := false }).Do
            [(OpPut [97] [1]).ApplyOpts [OpOption.WithPrefix]] with
          ops := (((sqlKVClientImpl.Txn { jobID := "A" } { cancelled := false }).Do
            [(OpPut [97] [1]).ApplyOpts [OpOption.WithPrefix]]).ops).map Op.plainPut } []).2
      = (((sqlKVClientImpl.Txn { jobID := "A" } { cancelled := false }).Do
          [(OpPut [97] [1]).ApplyOpts [OpOption.WithPrefix]]).Commit Faults.none []).2 ∧
    sqlKVClientImpl.doPut { jobID := "A" } { cancelled := false } []
        ((OpPut [97] [1]).ApplyOpts [OpOption.WithPrefix])
      = Except.ok (upsert [] { JobID := "A", KeyValue := { Key := [97], Value := [1] } }, {}) :=
  ⟨(put_modifiers_ignored Faults.none
      ((sqlKVClientImpl.Txn { jobID := "A" } { cancelled := false }).Do
        [(OpPut [97] [1]).ApplyOpts [OpOption.WithPrefix]]) []).1,
   (put_modifiers_ignored Faults.none
      ((sqlKVClientImpl.Txn { jobID := "A" } { cancelled := false }).Do
        [(OpPut [97] [1]).ApplyOpts [OpOption.WithPrefix]]) []).2
      { jobID := "A" } { cancelled := false }
      ((OpPut [97] [1]).ApplyOpts [OpOption.WithPrefix]) rfl⟩

/-- C14 (delete removes exactly the matching rows): with a live context, a
valid `Delete` succeeds, also when nothing matches, and leaves the prior table
without the rows of the client's job whose key is a key that `Get` with the
same key and options returns, every other row staying in place; when the
table has at most one row per identity, the removed rows are exactly the rows
of the job whose key-value pair `Get` returns. -/
theorem delete_removes_selected (c : sqlKVClientImpl) (ctx : Context)
    (hlive : ctx.cancelled = false) (db : Store) (key : Bytes) (opts : List OpOption)
    (hvalid : (OpDelete key opts).CheckValidOp = none) :
    c.Delete ctx db key opts = Except.ok
        (db.filter (fun r => !decide
          (r.JobID = c.jobID ∧ r.KeyValue.Key ∈ c.selectedKeys ctx db key opts)), {}) ∧
      (uniqueIdentity db →
        c.Delete ctx db key opts = Except.ok
          (db.filter (fun r => !decide
            (r.JobID = c.jobID ∧ r.KeyValue ∈ c.selectedItems ctx db key opts)), {})) := by
  have hvg : (OpGet key opts).CheckValidOp = none := by
    rw [OpGet_eq_asGet]
    exact CheckValidOp_asGet _ hvalid
  have hcond : ∀ x, (OpGet key opts).cond x = (OpDelete key opts).cond x := by
    intro x
    rw [OpGet_eq_asGet]
    rfl
  have hkeys : ∀ x, x ∈ c.selectedKeys ctx db key opts ↔
      ∃ r ∈ db, r.JobID = c.jobID ∧ r.KeyValue.Key = x ∧ (OpDelete key opts).cond x = true := by
    intro x
    have := doGet_keys c ctx hlive db (OpGet key opts) hvg x
    rw [hcond] at this
    exact this
  have hmain : c.Delete ctx db key opts = Except.ok
      (db.filter (fun r => !decide
        (r.JobID = c.jobID ∧ r.KeyValue.Key ∈ c.selectedKeys ctx db key opts)), {}) := by
    unfold sqlKVClientImpl.Delete
    rw [doDelete_valid c ctx hlive db _ hvalid]
    congr 2
    apply List.filter_congr
    intro r hr
    congr 1
    rw [Bool.eq_iff_iff]
    simp only [Bool.and_eq_true, decide_eq_true_eq, hkeys]
    constructor
    · rintro ⟨h1, h2⟩
      exact ⟨h1, r, hr, h1, rfl, h2⟩
    · rintro ⟨h1, _, _, _, _, h2⟩
      exact ⟨h1, h2⟩
  refine ⟨hmain, ?_⟩
  intro huniq
  rw [hmain]
  congr 2
  apply List.filter_congr
  intro r hr
  congr 1
  rw [Bool.eq_iff_iff]
  simp only [decide_eq_true_eq]
  have hitems : c.selectedKeys ctx db key opts
      = (c.selectedItems ctx db key opts).map KeyValue.Key := by
    unfold sqlKVClientImpl.selectedKeys sqlKVClientImpl.selectedItems
    cases c.Get ctx db key opts <;> rfl
  constructor
  · rintro ⟨h1, h2⟩
    refine ⟨h1, ?_⟩
    rw [hitems, List.mem_map] at h2
    obtain ⟨kv, hkv, hk⟩ := h2
    have hsrc : ∃ r1 ∈ db, r1.JobID = c.jobID ∧ r1.KeyValue = kv := by
      unfold sqlKVClientImpl.selectedItems at hkv
      cases hg : c.Get ctx db key opts with
      | error e => simp [hg] at hkv
      | ok rsp =>
        simp only [hg] at hkv
        exact doGet_items_mem c ctx db (OpGet key opts) rsp hg kv hkv
    obtain ⟨r1, hr1, hj1, hkv1⟩ := hsrc
    have heq : r1 = r := by
      apply List.inj_on_of_nodup_map huniq hr1 hr
      simp only [Prod.mk.injEq]
      exact ⟨hj1.trans h1.symm, by rw [hkv1, hk]⟩
    rw [← heq, hkv1]
    exact hkv
  · rintro ⟨h1, h2⟩
    refine ⟨h1, ?_⟩
    rw [hitems]
    exact List.mem_map_of_mem _ h2

/-- Witness of C14: the prefix delete of `a` for job `A` on a table that holds
`a`, `b`, `ab` for job `A` and `a` for job `B`. -/
theorem delete_removes_selected_witness :
    sqlKVClientImpl.Delete { jobID := "A" } { cancelled := false }
        [{ JobID := "A", KeyValue := { Key := [97], Value := [1] } },
         { JobID := "A", KeyValue := { Key := [98], Value := [2] } },
         { JobID := "B", KeyValue := { Key := [97], Value := [3] } },
         { JobID := "A", KeyValue := { Key := [97, 98], Value := [4] } }]
        [97] [OpOption.WithPrefix]
      = Except.ok
        ([{ JobID := "A", KeyValue := { Key := [98], Value := [2] } },
          { JobID := "B", KeyValue := { Key := [97], Value := [3] } }], {}) :=
  ((delete_removes_selected { jobID := "A" } { cancelled := false } rfl
    [{ JobID := "A", KeyValue := { Key := [97], Value := [1] } },
     { JobID := "A", KeyValue := { Key := [98], Value := [2] } },
     { JobID := "B", KeyValue := { Key := [97], Value := [3] } },
     { JobID := "A", KeyValue := { Key := [97, 98], Value := [4] } }]
    [97] [OpOption.WithPrefix] (by decide)).1).trans (by decide)

/-- C15, counterexample: an exact get of an absent key stands before the
nested transaction; `Commit` returns the error of the get, not the
nested-transaction error. -/
theorem nested_txn_counterexample :
    (((sqlKVClientImpl.Txn { jobID := "A" } { cancelled := false }).Do
        [OpGet [97] [], OpTxn]).Commit Faults.none []).2.2
      = Except.error (sqlErrorFromOpFail (some RawErr.recordNotFound)) ∧
    sqlErrorFromOpFail (some RawErr.recordNotFound) ≠ errNestedTxn ∧
    OpTxn.IsTxn = true := by
  refine ⟨by decide, by decide, by decide⟩

/-- C15 as amended (nested transactions are rejected): when the pending list of
an open transaction holds an operation of kind transaction, `Commit` returns
an error and no responses and the table is as before; when the backend
transaction begins and the operations placed before the first nested one all
succeed, the error is the nested-transaction error. -/
theorem nested_txn_rejected (flt : Faults) (t : sqlTxn) (db : Store)
    (hE : t.Err = none) (hc : t.committed = false)
    (pre post : List Op) (op : Op) (hop : op.IsTxn = true) (hops : t.ops = pre ++ op :: post) :
    (∃ e : sqlError, (t.Commit flt db).2 = (db, Except.error e)) ∧
      (flt.beginErr = none → ∀ (tx : Store) (rs : List ResponseOp),
        commitLoop t.impl t.ctx pre db [] = Except.ok (tx, rs) →
        (t.Commit flt db).2 = (db, Except.error errNestedTxn)) := by
  have hloop : commitLoop t.impl t.ctx t.ops db [] =
      match commitLoop t.impl t.ctx pre db [] with
      | Except.error e => Except.error e
      | Except.ok (tx1, acc1) => Except.error (GoError.sql errNestedTxn) := by
    rw [hops, commitLoop_append]
    cases commitLoop t.impl t.ctx pre db [] with
    | error e => rfl
    | ok res => exact commitLoop_txn _ _ op post hop _ _
  constructor
  · cases hb : flt.beginErr with
    | some e =>
      refine ⟨sqlErrorFromOpFail none, ?_⟩
      unfold sqlTxn.Commit
      simp [hE, hc, Transaction, hb]
    | none =>
      cases hpre : commitLoop t.impl t.ctx pre db [] with
      | error e =>
        obtain ⟨e1, rfl⟩ := commitLoop_error_sql _ _ _ _ _ _ hpre
        rw [hpre] at hloop
        exact ⟨e1, Commit_of_loop_error hE hc hb hloop⟩
      | ok res =>
        rw [hpre] at hloop
        exact ⟨errNestedTxn, Commit_of_loop_error hE hc hb hloop⟩
  · intro hb tx rs hpre
    rw [hpre] at hloop
    exact Commit_of_loop_error hE hc hb hloop

/-- Witness of C15 as amended: a put, then a nested transaction, then a delete;
the put is not in the table after `Commit`. -/
theorem nested_txn_rejected_witness :
    (((sqlKVClientImpl.Txn { jobID := "A" } { cancelled := false }).Do
        [OpPut [97] [1], OpTxn, OpDelete [98] []]).Commit Faults.none
        [{ JobID := "A", KeyValue := { Key := [98], Value := [2] } }]).2
      = ([{ JobID := "A", KeyValue := { Key := [98], Value := [2] } }],
          Except.error errNestedTxn) :=
  (nested_txn_rejected Faults.none
    ((sqlKVClientImpl.Txn { jobID := "A" } { cancelled := false }).Do
      [OpPut [97] [1], OpTxn, OpDelete [98] []])
    [{ JobID := "A", KeyValue := { Key := [98], Value := [2] } }] rfl rfl
    [OpPut [97] [1]] [OpDelete [98] []] OpTxn (by decide) (by decide)).2 rfl
    [{ JobID := "A", KeyValue := { Key := [98], Value := [2] } },
     { JobID := "A", KeyValue := { Key := [97], Value := [1] } }]
    [ResponseOp.makePutResponseOp {}] (by decide)

/-- C16, counterexample: a fresh transaction is committed once; it is then
committed and holds no error, and a further `Do` or `Commit` changes its
stored error. -/
theorem terminal_state_counterexample :
    ((sqlKVClientImpl.Txn { jobID := "A" } { cancelled := false }).Commit
        Faults.none []).1.committed = true ∧
    ((sqlKVClientImpl.Txn { jobID := "A" } { cancelled := false }).Commit
        Faults.none []).1.Err = none ∧
    (((sqlKVClientImpl.Txn { jobID := "A" } { cancelled := false }).Commit
        Faults.none []).1.Do []).Err = some errCommittedTxn ∧
    (((sqlKVClientImpl.Txn { jobID := "A" } { cancelled := false }).Commit
        Faults.none []).1.Commit Faults.none []).1.Err = some errCommittedTxn := by
  refine ⟨by decide, by decide, by decide, by decide⟩

/-- C16 as amended (terminal states): on a transaction that is committed or
holds an error, a further `Do` or `Commit` leaves the pending operations and
the committed flag as they were and `Commit` leaves the table as it was; when
the transaction holds an error nothing at all changes, and when it holds none
the committed-transaction error is stored. -/
theorem terminal_state_frozen (t : sqlTxn) (hterm : t.committed = true ∨ t.Err.isSome = true)
    (ops : List Op) (flt : Faults) (db : Store) :
    (t.Do ops).ops = t.ops ∧ (t.Do ops).committed = t.committed ∧
      (t.Commit flt db).1.ops = t.ops ∧ (t.Commit flt db).1.committed = t.committed ∧
      (t.Commit flt db).2.1 = db ∧
      (t.Err.isSome = true → t.Do ops = t ∧ (t.Commit flt db).1 = t) ∧
      (t.Err = none → (t.Do ops).Err = some errCommittedTxn ∧
        (t.Commit flt db).1.Err = some errCommittedTxn) := by
  unfold sqlTxn.Do sqlTxn.Commit
  cases hE : t.Err with
  | some e => simp
  | none =>
    have hc : t.committed = true := by
      rcases hterm with h | h
      · exact h
      · simp [hE] at h
    simp [hc]

/-- Witness of C16 as amended: the transaction committed once, then given a
put through `Do`. -/
theorem terminal_state_frozen_witness :
    (((sqlKVClientImpl.Txn { jobID := "A" } { cancelled := false }).Commit
        Faults.none []).1.Do [OpPut [97] [1]]).ops
      = ((sqlKVClientImpl.Txn { jobID := "A" } { cancelled := false }).Commit
        Faults.none []).1.ops :=
  (terminal_state_frozen
    ((sqlKVClientImpl.Txn { jobID := "A" } { cancelled := false }).Commit Faults.none []).1
    (Or.inl (by decide)) [OpPut [97] [1]] Faults.none []).1

/-- C17 (do after commit): on any transaction a caller can produce, once
`Commit` has been called a later `Do` appends nothing to the pending list and
stores the committed-transaction error, which the next `Commit` returns
without changing the table. -/
theorem do_after_commit_rejected (t : sqlTxn) (h : sqlTxn.Reachable t) (flt flt2 : Faults)
    (db db2 : Store) (ops : List Op) :
    ((t.Commit flt db).1.Do ops).ops = (t.Commit flt db).1.ops ∧
      ((t.Commit flt db).1.Do ops).ops = t.ops ∧
      ((t.Commit flt db).1.Do ops).Err = some errCommittedTxn ∧
      (((t.Commit flt db).1.Do ops).Commit flt2 db2).2
        = (db2, Except.error errCommittedTxn) := by
  have h1 : sqlTxn.Reachable (t.Commit flt db).1 := sqlTxn.Reachable.afterCommit flt t db h
  have hops := (Commit_state flt t db).1
  have hcom := Commit_committed_of_err_none flt t db
  generalize (t.Commit flt db).1 = t1 at h1 hops hcom
  unfold sqlTxn.Commit sqlTxn.Do
  rcases h1.err_inv with h0 | ⟨he, _⟩
  · simp [h0, hcom h0, hops]
  · simp [he, hops]

/-- Witness of C17: a fresh transaction with one put is committed, then given
a second put through `Do`, then committed again. -/
theorem do_after_commit_rejected_witness :
    (((((sqlKVClientImpl.Txn { jobID := "A" } { cancelled := false }).Do
        [OpPut [97] [1]]).Commit Faults.none []).1.Do [OpPut [98] [2]]).Commit Faults.none
        [{ JobID := "A", KeyValue := { Key := [97], Value := [1] } }]).2
      = ([{ JobID := "A", KeyValue := { Key := [97], Value := [1] } }],
          Except.error errCommittedTxn) :=
  (do_after_commit_rejected
    ((sqlKVClientImpl.Txn { jobID := "A" } { cancelled := false }).Do [OpPut [97] [1]])
    (sqlTxn.Reachable.afterDo _ _ (sqlTxn.Reachable.fresh { jobID := "A" } { cancelled := false }))
    Faults.none Faults.none []
    [{ JobID := "A", KeyValue := { Key := [97], Value := [1] } }] [OpPut [98] [2]]).2.2.2

/-- C18, the code at the failing input: the backend transaction fails to
begin with a raw error, or fails to commit with a raw error; in both cases
`Commit` returns the operation failure built from a nil error, which wraps no
cause. -/
theorem commit_backend_error_loses_cause :
    (sqlTxn.Commit { beginErr := some (RawErr.backend 7), commitErr := none }
        ((sqlKVClientImpl.Txn { jobID := "A" } { cancelled := false }).Do [OpPut [97] [1]])
        []).2.2
      = Except.error { displayed := MetaErr.OpFail none, cause := none } ∧
    (sqlTxn.Commit { beginErr := none, commitErr := some (RawErr.backend 9) }
        ((sqlKVClientImpl.Txn { jobID := "A" } { cancelled := false }).Do [OpPut [97] [1]])
        []).2.2
      = Except.error { displayed := MetaErr.OpFail none, cause := none } ∧
    MetaErr.OpFail none ≠ MetaErr.OpFail (some (RawErr.backend 7)) ∧
    MetaErr.OpFail none ≠ MetaErr.OpFail (some (RawErr.backend 9)) := by
  refine ⟨by decide, by decide, by decide, by decide⟩

/-- C19, the code at the failing input: a transaction with an empty pending
list and a cancelled context; `Commit` succeeds with an empty response list. -/
theorem commit_empty_cancelled_succeeds :
    ((sqlKVClientImpl.Txn { jobID := "A" } { cancelled := true }).Commit Faults.none
        [{ JobID := "A", KeyValue := { Key := [97], Value := [1] } }]).2
      = ([{ JobID := "A", KeyValue := { Key := [97], Value := [1] } }],
          Except.ok { Responses := [] }) ∧
    (sqlKVClientImpl.Txn { jobID := "A" } { cancelled := true }).ctx.cancelled = true := by
  refine ⟨by decide, by decide⟩

/-- Calls with a cancelled context: `Get`, `Put` and `Delete` return an error,
and so does `Commit` on a non-empty pending list, the table staying as it
was. -/
theorem cancelled_calls_fail (ctx : Context) (hc : ctx.cancelled = true) (db : Store) :
    (∀ (c : sqlKVClientImpl) key opts, ∃ e, c.Get ctx db key opts = Except.error e) ∧
      (∀ (c : sqlKVClientImpl) key val, ∃ e, c.Put ctx db key val = Except.error e) ∧
      (∀ (c : sqlKVClientImpl) key opts, ∃ e, c.Delete ctx db key opts = Except.error e) ∧
      (∀ (flt : Faults) (t : sqlTxn), t.ctx = ctx → t.ops ≠ [] →
        ∃ e, (t.Commit flt db).2 = (db, Except.error e)) := by
  have hget : ∀ (c : sqlKVClientImpl) (op : Op), ∃ e, c.doGet ctx db op = Except.error e := by
    intro c op
    unfold sqlKVClientImpl.doGet dbFind dbFirst
    cases hv : op.CheckValidOp with
    | some e => exact ⟨_, rfl⟩
    | none =>
      simp only [hc, if_true]
      split_ifs <;> exact ⟨_, rfl⟩
  have hput : ∀ (c : sqlKVClientImpl) (op : Op), ∃ e, c.doPut ctx db op = Except.error e := by
    intro c op
    unfold sqlKVClientImpl.doPut dbCreateOnConflictUpdateAll
    simp only [hc, if_true]
    exact ⟨_, rfl⟩
  have hdel : ∀ (c : sqlKVClientImpl) (op : Op),
      ∃ e, c.doDelete ctx db op = Except.error e := by
    intro c op
    unfold sqlKVClientImpl.doDelete dbDelete
    cases hv : op.CheckValidOp with
    | some e => exact ⟨_, rfl⟩
    | none =>
      simp only [hc, if_true]
      split_ifs <;> exact ⟨_, rfl⟩
  refine ⟨fun c key opts => hget c _, fun c key val => hput c _, fun c key opts => hdel c _, ?_⟩
  intro flt t hctx hne
  have hloop : ∃ e, commitLoop t.impl t.ctx t.ops db [] = Except.error (GoError.sql e) := by
    rw [hctx]
    cases hops : t.ops with
    | nil => exact absurd hops hne
    | cons op rest =>
      simp only [commitLoop]
      obtain ⟨e1, h1⟩ := hget t.impl op
      obtain ⟨e2, h2⟩ := hput t.impl op
      obtain ⟨e3, h3⟩ := hdel t.impl op
      rw [h1, h2, h3]
      split_ifs <;> exact ⟨_, rfl⟩
  obtain ⟨e, hl⟩ := hloop
  cases hE : t.Err with
  | some e1 =>
    refine ⟨e1, ?_⟩
    unfold sqlTxn.Commit
    simp [hE]
  | none =>
    cases hcm : t.committed with
    | true =>
      refine ⟨errCommittedTxn, ?_⟩
      unfold sqlTxn.Commit
      simp [hE, hcm]
    | false =>
      cases hb : flt.beginErr with
      | some e1 =>
        refine ⟨sqlErrorFromOpFail none, ?_⟩
        unfold sqlTxn.Commit
        simp [hE, hcm, Transaction, hb]
      | none => exact ⟨e, Commit_of_loop_error hE hcm hb hl⟩

/-! ## Initialization properties -/

/-- C20, counterexample: a run of `Initialize` without failures migrates the
key-value table as its first step and creates the epoch client as its second
step, so the epoch step does not come before the table step. -/
theorem initialize_order_counterexample :
    (sqlKVClientImpl.Initialize { migrateErr := none, epochClientErr := none }
        { jobID := "A" } { cancelled := false }).1
      = [InitStep.AutoMigrateMetaKV, InitStep.NewEpochClient "A"] ∧
    ¬ (List.indexOf (InitStep.NewEpochClient "A")
        (sqlKVClientImpl.Initialize { migrateErr := none, epochClientErr := none }
          { jobID := "A" } { cancelled := false }).1
      < List.indexOf InitStep.AutoMigrateMetaKV
        (sqlKVClientImpl.Initialize { migrateErr := none, epochClientErr := none }
          { jobID := "A" } { cancelled := false }).1) := by
  refine ⟨by decide, by decide⟩

/-- C20 as amended (initialization order): in every run of `Initialize` the
migration of the key-value table is the first step; when it fails the run
stops there with the operation failure wrapping the backend error, and when
it succeeds the creation of the epoch client of the job is the second and last
step, whose outcome is the outcome of the run. -/
theorem initialize_steps (flt : InitFaults) (c : sqlKVClientImpl) (ctx : Context) :
    (c.Initialize flt ctx).1.head? = some InitStep.AutoMigrateMetaKV ∧
      (((c.Initialize flt ctx).1 = [InitStep.AutoMigrateMetaKV] ∧
          ∃ err : RawErr, (c.Initialize flt ctx).2 = Except.error (MetaErr.OpFail (some err))) ∨
        ((c.Initialize flt ctx).1
            = [InitStep.AutoMigrateMetaKV, InitStep.NewEpochClient c.jobID] ∧
          ctx.cancelled = false ∧ flt.migrateErr = none ∧
          (c.Initialize flt ctx).2 =
            match flt.epochClientErr with
            | some err => Except.error err
            | none => Except.ok { jobID := c.jobID })) := by
  unfold sqlKVClientImpl.Initialize
  cases hc : ctx.cancelled with
  | true => simp
  | false =>
    cases hm : flt.migrateErr with
    | some e => simp
    | none =>
      cases he : flt.epochClientErr with
      | some e => simp
      | none => simp

/-! ## Epoch and construction properties -/

/-- C21 (epoch monotonicity): of two successful `GenEpoch` calls on clients of
one job, made one after the other with any `GenEpoch` calls of any clients in
between, the later returns a strictly greater value, and both values are
within the 64-bit range. -/
theorem epoch_strictly_increasing (c1 c2 : sqlKVClientImpl) (hjob : c1.jobID = c2.jobID)
    (flt1 flt2 : Option RawErr) (ctx1 ctx2 : Context) (st : EpochStore)
    (between : List EpochCall) (v1 v2 : Int)
    (h1 : (c1.GenEpoch flt1 ctx1 st).2 = Except.ok v1)
    (h2 : (c2.GenEpoch flt2 ctx2
      (runGenEpochs between (c1.GenEpoch flt1 ctx1 st).1)).2 = Except.ok v2) :
    v1 < v2 ∧ v1 ≤ maxInt64 ∧ v2 ≤ maxInt64 := by
  obtain ⟨_, hs1, hm1⟩ := GenEpoch_ok c1 flt1 ctx1 st v1 h1
  obtain ⟨hv2, _, hm2⟩ := GenEpoch_ok c2 flt2 ctx2 _ v2 h2
  have hmono := runGenEpochs_mono between (c1.GenEpoch flt1 ctx1 st).1 c2.jobID
  rw [← hjob, hs1] at hmono
  rw [← hjob] at hv2
  refine ⟨?_, hm1, hm2⟩
  omega

/-- Witness of C21: job `A` draws an epoch from a counter at zero, then job
`B` draws one and job `A` fails once with a cancelled context, then job `A`
draws again. -/
theorem epoch_strictly_increasing_witness :
    (sqlKVClientImpl.GenEpoch { jobID := "A" } none { cancelled := false } (fun _ => 0)).2
      = Except.ok 1 ∧
    (sqlKVClientImpl.GenEpoch { jobID := "A" } none { cancelled := false }
        (runGenEpochs
          [{ client := { jobID := "B" }, flt := none, ctx := { cancelled := false } },
           { client := { jobID := "A" }, flt := none, ctx := { cancelled := true } }]
          (sqlKVClientImpl.GenEpoch { jobID := "A" } none { cancelled := false }
            (fun _ => 0)).1)).2
      = Except.ok 2 ∧
    ((1 : Int) < 2 ∧ (1 : Int) ≤ maxInt64 ∧ (2 : Int) ≤ maxInt64) :=
  ⟨by decide, by decide,
   epoch_strictly_increasing { jobID := "A" } { jobID := "A" } rfl none none
    { cancelled := false } { cancelled := false } (fun _ => 0)
    [{ client := { jobID := "B" }, flt := none, ctx := { cancelled := false } },
     { client := { jobID := "A" }, flt := none, ctx := { cancelled := true } }]
    1 2 (by decide) (by decide)⟩

/-- C22 (construction rejects an absent handle): `NewSQLKVClientImpl` with a
nil database handle returns no client and the invalid-parameter error, for
every table name and job, without any backend call. -/
theorem new_client_nil_handle (flt : NewClientFaults) (table : String) (jobID : JobID) :
    NewSQLKVClientImpl flt none table jobID = ([], Except.error MetaErr.ParamsInvalid) := by
  rfl

/-- C24 (do accumulates in call order): on an open transaction, `Do(xs)`
followed by `Do(ys)` gives the transaction that a single `Do(xs ++ ys)`
gives, whose pending list is the previous pending list followed by `xs` then
`ys`; `Do` has no access to the table. -/
theorem do_accumulates (t : sqlTxn) (hE : t.Err = none) (hc : t.committed = false)
    (xs ys : List Op) :
    (t.Do xs).Do ys = t.Do (xs ++ ys) ∧ ((t.Do xs).Do ys).ops = t.ops ++ xs ++ ys ∧
      (t.Do (xs ++ ys)).ops = t.ops ++ xs ++ ys := by
  unfold sqlTxn.Do
  simp [hE, hc]

/-- Witness of C24: a fresh transaction given a put, then a get and a delete. -/
theorem do_accumulates_witness :
    (((sqlKVClientImpl.Txn { jobID := "A" } { cancelled := false }).Do [OpPut [97] [1]]).Do
        [OpGet [97] [], OpDelete [98] []]).ops
      = (sqlKVClientImpl.Txn { jobID := "A" } { cancelled := false }).ops
          ++ [OpPut [97] [1]] ++ [OpGet [97] [], OpDelete [98] []] :=
  (do_accumulates (sqlKVClientImpl.Txn { jobID := "A" } { cancelled := false }) rfl rfl
    [OpPut [97] [1]] [OpGet [97] [], OpDelete [98] []]).2.1

/-- C25 (a read of a missing key aborts the batch): when the pending list of an
open transaction holds a get without modifier whose key has no row for the
job at the point the get is replayed, `Commit` returns an error and the table
is as before, so no put or delete of the batch stays applied; when the backend
transaction begins and the operations before the get succeed, the error is
the operation failure of the get. -/
theorem absent_get_aborts_batch (flt : Faults) (t : sqlTxn) (db : Store)
    (hE : t.Err = none) (hc : t.committed = false)
    (pre post : List Op) (g : Op) (hg : g.IsGet = true) (hx : g.isExact = true)
    (hops : t.ops = pre ++ g :: post)
    (habs : ∀ (tx : Store) (rs : List ResponseOp),
      commitLoop t.impl t.ctx pre db [] = Except.ok (tx, rs) →
      ∀ r ∈ tx, r.JobID = t.impl.jobID → r.KeyValue.Key ≠ g.KeyBytes) :
    (∃ e : sqlError, (t.Commit flt db).2 = (db, Except.error e)) ∧
      (flt.beginErr = none → ∀ (tx : Store) (rs : List ResponseOp),
        commitLoop t.impl t.ctx pre db [] = Except.ok (tx, rs) →
        (t.Commit flt db).2 = (db, Except.error (sqlErrorFromOpFail (some
          (if t.ctx.cancelled then RawErr.contextCanceled else RawErr.recordNotFound))))) := by
  have hloop : commitLoop t.impl t.ctx t.ops db [] =
      match commitLoop t.impl t.ctx pre db [] with
      | Except.error e => Except.error e
      | Except.ok (tx1, acc1) => Except.error (GoError.sql (sqlErrorFromOpFail (some
          (if t.ctx.cancelled then RawErr.contextCanceled else RawErr.recordNotFound)))) := by
    rw [hops, commitLoop_append]
    cases hpre : commitLoop t.impl t.ctx pre db [] with
    | error e => rfl
    | ok res =>
      obtain ⟨tx, rs⟩ := res
      simp only [commitLoop, hg, if_true,
        doGet_exact_absent t.impl t.ctx tx g hx (habs tx rs hpre)]
  constructor
  · cases hb : flt.beginErr with
    | some e =>
      refine ⟨sqlErrorFromOpFail none, ?_⟩
      unfold sqlTxn.Commit
      simp [hE, hc, Transaction, hb]
    | none =>
      cases hpre : commitLoop t.impl t.ctx pre db [] with
      | error e =>
        obtain ⟨e1, rfl⟩ := commitLoop_error_sql _ _ _ _ _ _ hpre
        rw [hpre] at hloop
        exact ⟨e1, Commit_of_loop_error hE hc hb hloop⟩
      | ok res =>
        rw [hpre] at hloop
        exact ⟨_, Commit_of_loop_error hE hc hb hloop⟩
  · intro hb tx rs hpre
    rw [hpre] at hloop
    exact Commit_of_loop_error hE hc hb hloop

/-- Witness of C25: a put of `a`, an exact get of the absent key `b`, and a
delete of `c`; the table after `Commit` holds neither the put nor the delete. -/
theorem absent_get_aborts_batch_witness :
    (((sqlKVClientImpl.Txn { jobID := "A" } { cancelled := false }).Do
        [OpPut [97] [1], OpGet [98] [], OpDelete [99] []]).Commit Faults.none
        [{ JobID := "A", KeyValue := { Key := [99], Value := [2] } }]).2
      = ([{ JobID := "A", KeyValue := { Key := [99], Value := [2] } }],
          Except.error (sqlErrorFromOpFail (some
            (if (sqlKVClientImpl.Txn { jobID := "A" } { cancelled := false }).ctx.cancelled
              then RawErr.contextCanceled else RawErr.recordNotFound)))) :=
  (absent_get_aborts_batch Faults.none
    ((sqlKVClientImpl.Txn { jobID := "A" } { cancelled := false }).Do
      [OpPut [97] [1], OpGet [98] [], OpDelete [99] []])
    [{ JobID := "A", KeyValue := { Key := [99], Value := [2] } }] rfl rfl
    [OpPut [97] [1]] [OpDelete [99] []] (OpGet [98] []) (by decide) (by decide) (by decide)
    (by
      intro tx rs h
      have htx : tx = [{ JobID := "A", KeyValue := { Key := [99], Value := [2] } },
          { JobID := "A", KeyValue := { Key := [97], Value := [1] } }] := by
        have h0 : commitLoop { jobID := "A" } { cancelled := false } [OpPut [97] [1]]
            [{ JobID := "A", KeyValue := { Key := [99], Value := [2] } }] []
            = Except.ok ([{ JobID := "A", KeyValue := { Key := [99], Value := [2] } },
                { JobID := "A", KeyValue := { Key := [97], Value := [1] } }],
              [ResponseOp.makePutResponseOp {}]) := by decide
        have h1 := h0.symm.trans h
        simp only [Except.ok.injEq, Prod.mk.injEq] at h1
        exact h1.1.symm
      subst htx
      decide)).2 rfl
    [{ JobID := "A", KeyValue := { Key := [99], Value := [2] } },
     { JobID := "A", KeyValue := { Key := [97], Value := [1] } }]
    [ResponseOp.makePutResponseOp {}] (by decide)

end Sqlkv

namespace ServerMaster

/-- C28, the code at the failing input: the frame store type is ` SQL ` and the
business store type is `ETCD`; `Adjust` succeeds and both store types are as
before, not their lower-cased, trimmed forms `sql` and `etcd`. -/
theorem adjust_keeps_store_type :
    (Config.Adjust (fun _ => (1000000000, none))
        { Addr := "127.0.0.1:10240", AdvertiseAddr := "",
          FrameMetaConf := { StoreType := " SQL " },
          BusinessMetaConf := { StoreType := "ETCD" },
          KeepAliveTTLStr := "20s", KeepAliveIntervalStr := "500ms", RPCTimeoutStr := "3s",
          KeepAliveTTL := 0, KeepAliveInterval := 0, RPCTimeout := 0 }).2 = none ∧
    (Config.Adjust (fun _ => (1000000000, none))
        { Addr := "127.0.0.1:10240", AdvertiseAddr := "",
          FrameMetaConf := { StoreType := " SQL " },
          BusinessMetaConf := { StoreType := "ETCD" },
          KeepAliveTTLStr := "20s", KeepAliveIntervalStr := "500ms", RPCTimeoutStr := "3s",
          KeepAliveTTL := 0, KeepAliveInterval := 0, RPCTimeout := 0 }).1.FrameMetaConf.StoreType
      = " SQL " ∧
    (Config.Adjust (fun _ => (1000000000, none))
        { Addr := "127.0.0.1:10240", AdvertiseAddr := "",
          FrameMetaConf := { StoreType := " SQL " },
          BusinessMetaConf := { StoreType := "ETCD" },
          KeepAliveTTLStr := "20s", KeepAliveIntervalStr := "500ms", RPCTimeoutStr := "3s",
          KeepAliveTTL := 0, KeepAliveInterval := 0,
          RPCTimeout := 0 }).1.BusinessMetaConf.StoreType
      = "ETCD" ∧
    ToLower (TrimSpace " SQL ") = "sql" ∧ ToLower (TrimSpace "ETCD") = "etcd" ∧
    " SQL " ≠ "sql" ∧ "ETCD" ≠ "etcd" := by
  refine ⟨by decide, by decide, by decide, by decide, by decide, by decide, by decide⟩

/-- The two store types are the same before and after `Adjust`, whatever the
configuration and the outcome of the call. -/
theorem Adjust_store_type (ParseDuration : String → Int × Option String) (c : Config) :
    (c.Adjust ParseDuration).1.FrameMetaConf = c.FrameMetaConf ∧
      (c.Adjust ParseDuration).1.BusinessMetaConf = c.BusinessMetaConf := by
  unfold Config.Adjust Config.adjustStoreConfig
  by_cases ha : c.AdvertiseAddr = "" <;> simp only [ha, if_true, if_false] <;>
    (split <;> [skip; split] <;> [skip; skip; split]) <;> simp

end ServerMaster

namespace DmSyncer

/-- C29, the code at the failing input: without any flag the task name is
`dm-syncer`, the default of `-cp-table-prefix`, not the empty default of
`-name`; with `-name t1 -cp-table-prefix p` the task name is `p`, and with
`-cp-table-prefix p -name t1` it is `t1`. -/
theorem task_name_from_cp_table_flag :
    newSubTaskConfigName [] = Except.ok "dm-syncer" ∧
    newSubTaskConfigName [("name", "t1"), ("cp-table-prefix", "p")] = Except.ok "p" ∧
    newSubTaskConfigName [("cp-table-prefix", "p"), ("name", "t1")] = Except.ok "t1" ∧
    newSubTaskConfigName [("cp-table-prefix", "p")] = Except.ok "p" := by
  refine ⟨by decide, by decide, by decide, by decide⟩

end DmSyncer

namespace DmSyncer

/-! ## Lemmas on `generateBinlogEventRule` -/

/-- The first loop succeeds when every skip-DDL entry classifies as `ddl`. -/
theorem ddlLoop_valid (ClassifyEvent : String → String) (skipDDLs : List String) :
    ∀ ddlEvents : BinlogEventRule, (∀ x ∈ skipDDLs, ClassifyEvent x = "ddl") →
      ∃ r, ddlLoop ClassifyEvent skipDDLs ddlEvents = Except.ok r := by
  induction skipDDLs with
  | nil => intro ddlEvents _; exact ⟨ddlEvents, rfl⟩
  | cons x rest ih =>
    intro ddlEvents h
    have hx := h x (List.mem_cons_self _ _)
    simp only [ddlLoop, hx, ne_eq, not_true_eq_false, if_false]
    exact ih _ (fun y hy => h y (List.mem_cons_of_mem _ hy))

/-- The first loop fails when some skip-DDL entry does not classify as `ddl`. -/
theorem ddlLoop_invalid (ClassifyEvent : String → String) (skipDDLs : List String) :
    ∀ ddlEvents : BinlogEventRule, (∃ x ∈ skipDDLs, ClassifyEvent x ≠ "ddl") →
      ∃ e, ddlLoop ClassifyEvent skipDDLs ddlEvents = Except.error e := by
  induction skipDDLs with
  | nil => intro ddlEvents h; obtain ⟨x, hx, _⟩ := h; simp at hx
  | cons y rest ih =>
    intro ddlEvents h
    by_cases hy : ClassifyEvent y = "ddl"
    · simp only [ddlLoop, hy, ne_eq, not_true_eq_false, if_false]
      apply ih
      obtain ⟨x, hx, hne⟩ := h
      rcases List.mem_cons.1 hx with rfl | hx
      · exact absurd hy hne
      · exact ⟨x, hx, hne⟩
    · simp only [ddlLoop, ne_eq, hy, not_false_eq_true, if_true]
      exact ⟨_, rfl⟩

/-- The pairs in order of first occurrence, after one more entry. -/
theorem firstPairs_append_one (ds : List SkipDML) (d : SkipDML) :
    firstPairs (ds ++ [d]) =
      if d.pair ∈ firstPairs ds then firstPairs ds else firstPairs ds ++ [d.pair] := by
  have hmem : d.pair ∈ firstPairs ds ↔ d.pair ∈ (ds.map SkipDML.pair).reverse := by
    unfold firstPairs
    rw [List.mem_reverse, List.mem_dedup]
  unfold firstPairs at hmem ⊢
  rw [List.map_append, List.reverse_append]
  simp only [List.map_cons, List.map_nil, List.reverse_cons, List.reverse_nil, List.nil_append,
    List.singleton_append]
  by_cases h : d.pair ∈ (ds.map SkipDML.pair).reverse
  · rw [List.dedup_cons_of_mem h, if_pos (hmem.2 h)]
  · rw [List.dedup_cons_of_not_mem h, if_neg (fun hc => h (hmem.1 hc))]
    simp

/-- A pair is among the first pairs exactly when an entry has it. -/
theorem mem_firstPairs (ds : List SkipDML) (p : String × String) :
    p ∈ firstPairs ds ↔ ∃ d ∈ ds, d.pair = p := by
  unfold firstPairs
  rw [List.mem_reverse, List.mem_dedup, List.mem_reverse, List.mem_map]

/-- The first pairs hold no pair twice. -/
theorem nodup_firstPairs (ds : List SkipDML) : (firstPairs ds).Nodup := by
  unfold firstPairs
  rw [List.nodup_reverse]
  exact List.nodup_dedup _

/-- The rule of a pair after one more entry with another pair. -/
theorem groupRule_append_ne (ds : List SkipDML) (d : SkipDML) (p : String × String)
    (h : d.pair ≠ p) : groupRule (ds ++ [d]) p = groupRule ds p := by
  unfold groupRule
  simp [List.filter_append, List.filter_cons, h]

/-- The rule of a pair after one more entry with that pair. -/
theorem groupRule_append_eq (ds : List SkipDML) (d : SkipDML) :
    groupRule (ds ++ [d]) d.pair =
      { groupRule ds d.pair with Events := (groupRule ds d.pair).Events ++ [d.Type_] } := by
  unfold groupRule
  simp [List.filter_append, List.filter_cons]

/-- The inner loop on the rules of a list of distinct pairs. -/
theorem appendToFound_map (ds : List SkipDML) (d : SkipDML) :
    ∀ l : List (String × String), l.Nodup →
      appendToFound (l.map (groupRule ds)) d =
        if d.pair ∈ l then some (l.map (groupRule (ds ++ [d]))) else none := by
  intro l
  induction l with
  | nil => intro _; rfl
  | cons p rest ih =>
    intro hnd
    rw [List.nodup_cons] at hnd
    simp only [List.map_cons, appendToFound]
    by_cases hp : p = d.pair
    · subst hp
      have h1 : (groupRule ds d.pair).SchemaPattern = d.Schema ∧
          (groupRule ds d.pair).TablePattern = d.Table := ⟨rfl, rfl⟩
      rw [if_pos h1, if_pos (List.mem_cons_self _ _), groupRule_append_eq]
      congr 2
      apply List.map_congr_left
      intro q hq
      have hne : d.pair ≠ q := fun h => hnd.1 (h ▸ hq)
      rw [groupRule_append_ne ds d q hne]
    · have h1 : ¬ ((groupRule ds p).SchemaPattern = d.Schema ∧
          (groupRule ds p).TablePattern = d.Table) := by
        rintro ⟨h2, h3⟩
        apply hp
        cases p
        simp only [groupRule, SkipDML.pair] at h2 h3 ⊢
        rw [h2, h3]
      have hne : d.pair ≠ p := fun h => hp h.symm
      rw [if_neg h1, ih hnd.2, groupRule_append_ne ds d p hne]
      by_cases hm : d.pair ∈ rest
      · rw [if_pos hm, if_pos (List.mem_cons_of_mem _ hm)]
        rfl
      · rw [if_neg hm, if_neg (fun hc => by
          rcases List.mem_cons.1 hc with h | h
          · exact hne h
          · exact hm h)]
        rfl

/-- One round of the second loop takes the rules of the entries read so far to
the rules of the entries with one more. -/
theorem dmlLoop_step (ClassifyEvent : String → String) (ds : List SkipDML) (d : SkipDML)
    (rest : List SkipDML) (hd : ClassifyEvent d.Type_ = "dml") :
    dmlLoop ClassifyEvent (d :: rest) (grouped ds)
      = dmlLoop ClassifyEvent rest (grouped (ds ++ [d])) := by
  simp only [dmlLoop, hd, ne_eq, not_true_eq_false, if_false]
  unfold grouped
  rw [appendToFound_map ds d _ (nodup_firstPairs ds), firstPairs_append_one]
  by_cases hm : d.pair ∈ firstPairs ds
  · simp only [hm, if_true]
  · simp only [hm, if_false, List.map_append, List.map_cons, List.map_nil]
    have h1 : (firstPairs ds).map (groupRule (ds ++ [d])) = (firstPairs ds).map (groupRule ds) := by
      apply List.map_congr_left
      intro q hq
      exact groupRule_append_ne ds d q (fun h => hm (h ▸ hq))
    have h2 : groupRule (ds ++ [d]) d.pair
        = { SchemaPattern := d.Schema, TablePattern := d.Table, Events := [d.Type_],
            SQLPattern := [] } := by
      rw [groupRule_append_eq]
      have hnil : ds.filter (fun x => decide (x.pair = d.pair)) = [] := by
        rw [List.filter_eq_nil_iff]
        intro x hx
        simp only [decide_eq_true_eq]
        intro hxe
        exact hm ((mem_firstPairs ds d.pair).2 ⟨x, hx, hxe⟩)
      simp only [groupRule, hnil, List.map_nil, List.nil_append]
      rfl
    rw [h1, h2]

/-- The second loop, started on the rules of the entries read so far, ends on
the rules of all entries when every entry classifies as `dml`. -/
theorem dmlLoop_grouped (ClassifyEvent : String → String) (rest : List SkipDML) :
    ∀ ds : List SkipDML, (∀ d ∈ rest, ClassifyEvent d.Type_ = "dml") →
      dmlLoop ClassifyEvent rest (grouped ds) = Except.ok (grouped (ds ++ rest)) := by
  induction rest with
  | nil => intro ds _; simp [dmlLoop]
  | cons d rest ih =>
    intro ds h
    rw [dmlLoop_step ClassifyEvent ds d rest (h d (List.mem_cons_self _ _)),
      ih (ds ++ [d]) (fun x hx => h x (List.mem_cons_of_mem _ hx)), List.append_assoc]
    rfl

/-- The inner loop adds exactly one event and no pattern. -/
theorem appendToFound_props (d : SkipDML) : ∀ (result result1 : List BinlogEventRule),
    appendToFound result d = some result1 →
      totalEvents result1 = totalEvents result + 1 ∧
      ((∀ r ∈ result, r.SQLPattern = []) → ∀ r ∈ result1, r.SQLPattern = []) := by
  intro result
  induction result with
  | nil => intro result1 h; simp [appendToFound] at h
  | cons evt rest ih =>
    intro result1 h
    simp only [appendToFound] at h
    split_ifs at h with hm
    · simp only [Option.some.injEq] at h
      subst h
      constructor
      · simp [totalEvents]
        omega
      · intro hall r hr
        rcases List.mem_cons.1 hr with rfl | hr
        · exact hall evt (List.mem_cons_self _ _)
        · exact hall r (List.mem_cons_of_mem _ hr)
    · cases hrec : appendToFound rest d with
      | none => simp [hrec] at h
      | some r1 =>
        simp only [hrec, Option.map_some', Option.some.injEq] at h
        subst h
        obtain ⟨ht, hp⟩ := ih r1 hrec
        constructor
        · simp only [totalEvents, List.map_cons, List.sum_cons] at ht ⊢
          omega
        · intro hall r hr
          rcases List.mem_cons.1 hr with rfl | hr
          · exact hall r (List.mem_cons_self _ _)
          · exact hp (fun x hx => hall x (List.mem_cons_of_mem _ hx)) r hr

/-- The second loop adds one event per entry and no pattern. -/
theorem dmlLoop_props (ClassifyEvent : String → String) (ds : List SkipDML) :
    ∀ (result rules : List BinlogEventRule),
      dmlLoop ClassifyEvent ds result = Except.ok rules →
      totalEvents rules = totalEvents result + ds.length ∧
      ((∀ r ∈ result, r.SQLPattern = []) → ∀ r ∈ rules, r.SQLPattern = []) := by
  induction ds with
  | nil =>
    intro result rules h
    simp only [dmlLoop, Except.ok.injEq] at h
    subst h
    exact ⟨by simp, fun hall => hall⟩
  | cons d rest ih =>
    intro result rules h
    simp only [dmlLoop] at h
    split_ifs at h with hc
    cases hf : appendToFound result d with
    | some result1 =>
      simp only [hf] at h
      obtain ⟨ht, hp⟩ := ih _ _ h
      obtain ⟨ht1, hp1⟩ := appendToFound_props d result result1 hf
      refine ⟨?_, fun hall => hp (hp1 hall)⟩
      rw [ht, ht1, List.length_cons]
      omega
    | none =>
      simp only [hf] at h
      obtain ⟨ht, hp⟩ := ih _ _ h
      constructor
      · rw [ht, List.length_cons]
        simp [totalEvents]
        omega
      · intro hall
        apply hp
        intro r hr
        rcases List.mem_append.1 hr with hr | hr
        · exact hall r hr
        · simp only [List.mem_singleton] at hr
          rw [hr]

/-- With valid skip-DDL entries the function is the second loop run from the
empty result. -/
theorem generate_of_valid_ddls (ClassifyEvent : String → String) (skipDDLs : List String)
    (skipDMLs : List SkipDML) (hddl : ∀ x ∈ skipDDLs, ClassifyEvent x = "ddl") :
    generateBinlogEventRule ClassifyEvent skipDDLs skipDMLs
      = dmlLoop ClassifyEvent skipDMLs [] := by
  unfold generateBinlogEventRule
  obtain ⟨r, hr⟩ := ddlLoop_valid ClassifyEvent skipDDLs
    { SchemaPattern := "", TablePattern := "", Events := [], SQLPattern := [] } hddl
  rw [hr]

/-! ## Properties of `generateBinlogEventRule` -/

/-- C26 (skip-DML entries are grouped by table): when every skip-DDL entry
classifies as `ddl` and every skip-DML entry as `dml`, the function returns one
rule per distinct schema and table pair of the skip-DML entries, in order of
first occurrence, the events of each rule being the types of the entries with
its pair in input order; the events of all rules together are as many as the
skip-DML entries. -/
theorem generate_groups_by_table (ClassifyEvent : String → String) (skipDDLs : List String)
    (skipDMLs : List SkipDML) (hddl : ∀ x ∈ skipDDLs, ClassifyEvent x = "ddl")
    (hdml : ∀ d ∈ skipDMLs, ClassifyEvent d.Type_ = "dml") :
    generateBinlogEventRule ClassifyEvent skipDDLs skipDMLs = Except.ok (grouped skipDMLs) ∧
      (grouped skipDMLs).map (fun r => (r.SchemaPattern, r.TablePattern))
        = ((skipDMLs.map (fun d => (d.Schema, d.Table))).reverse.dedup).reverse ∧
      ((grouped skipDMLs).map (fun r => (r.SchemaPattern, r.TablePattern))).Nodup ∧
      (∀ r ∈ grouped skipDMLs, r.Events =
        (skipDMLs.filter (fun d =>
          decide (d.Schema = r.SchemaPattern ∧ d.Table = r.TablePattern))).map SkipDML.Type_) ∧
      totalEvents (grouped skipDMLs) = skipDMLs.length := by
  have hgen : generateBinlogEventRule ClassifyEvent skipDDLs skipDMLs
      = Except.ok (grouped skipDMLs) := by
    rw [generate_of_valid_ddls ClassifyEvent skipDDLs skipDMLs hddl]
    have h := dmlLoop_grouped ClassifyEvent skipDMLs [] hdml
    rw [List.nil_append] at h
    exact h
  have hpairs : (grouped skipDMLs).map (fun r => (r.SchemaPattern, r.TablePattern))
      = firstPairs skipDMLs := by
    unfold grouped
    rw [List.map_map]
    conv_rhs => rw [← List.map_id (firstPairs skipDMLs)]
    apply List.map_congr_left
    intro p _
    rfl
  refine ⟨hgen, ?_, ?_, ?_, ?_⟩
  · rw [hpairs]
    rfl
  · rw [hpairs]
    exact nodup_firstPairs skipDMLs
  · intro r hr
    unfold grouped at hr
    rw [List.mem_map] at hr
    obtain ⟨p, _, rfl⟩ := hr
    unfold groupRule
    simp only
    congr 1
    apply List.filter_congr
    intro d _
    cases p
    simp [SkipDML.pair]
  · have h := generate_of_valid_ddls ClassifyEvent skipDDLs skipDMLs hddl
    rw [hgen] at h
    have := (dmlLoop_props ClassifyEvent skipDMLs [] _ h.symm).1
    simpa [totalEvents] using this

/-- Witness of C26: three skip-DML entries on two tables, the first table
coming back after the second. -/
theorem generate_groups_by_table_witness :
    generateBinlogEventRule
        (fun s => if s = "insert" ∨ s = "update" ∨ s = "delete" then "dml" else "ddl")
        ["create table"]
        [{ Schema := "a", Table := "t1", Type_ := "insert" },
         { Schema := "b", Table := "t2", Type_ := "delete" },
         { Schema := "a", Table := "t1", Type_ := "update" }]
      = Except.ok
        [{ SchemaPattern := "a", TablePattern := "t1", Events := ["insert", "update"],
           SQLPattern := [] },
         { SchemaPattern := "b", TablePattern := "t2", Events := ["delete"],
           SQLPattern := [] }] :=
  ((generate_groups_by_table
    (fun s => if s = "insert" ∨ s = "update" ∨ s = "delete" then "dml" else "ddl")
    ["create table"]
    [{ Schema := "a", Table := "t1", Type_ := "insert" },
     { Schema := "b", Table := "t2", Type_ := "delete" },
     { Schema := "a", Table := "t1", Type_ := "update" }]
    (by decide) (by decide)).1).trans (by decide)

/-- C27 (the skip-DDL patterns are never emitted): whenever the function
succeeds no returned rule carries a pattern; the returned rules are the same
for any two lists of skip-DDL entries that all classify as `ddl`; and a
skip-DDL entry that does not classify as `ddl` makes the function fail. -/
theorem generate_ignores_skip_ddls (ClassifyEvent : String → String)
    (skipDMLs : List SkipDML) :
    (∀ (skipDDLs : List String) (rules : List BinlogEventRule),
        generateBinlogEventRule ClassifyEvent skipDDLs skipDMLs = Except.ok rules →
        ∀ r ∈ rules, r.SQLPattern = []) ∧
      (∀ ddls1 ddls2 : List String, (∀ x ∈ ddls1, ClassifyEvent x = "ddl") →
        (∀ x ∈ ddls2, ClassifyEvent x = "ddl") →
        generateBinlogEventRule ClassifyEvent ddls1 skipDMLs
          = generateBinlogEventRule ClassifyEvent ddls2 skipDMLs) ∧
      (∀ skipDDLs : List String, (∃ x ∈ skipDDLs, ClassifyEvent x ≠ "ddl") →
        ∃ e, generateBinlogEventRule ClassifyEvent skipDDLs skipDMLs = Except.error e) := by
  refine ⟨?_, ?_, ?_⟩
  · intro skipDDLs rules h
    unfold generateBinlogEventRule at h
    cases hd : ddlLoop ClassifyEvent skipDDLs
        { SchemaPattern := "", TablePattern := "", Events := [], SQLPattern := [] } with
    | error e => simp [hd] at h
    | ok r0 =>
      simp only [hd] at h
      exact (dmlLoop_props ClassifyEvent skipDMLs [] rules h).2 (by simp)
  · intro ddls1 ddls2 h1 h2
    rw [generate_of_valid_ddls ClassifyEvent ddls1 skipDMLs h1,
      generate_of_valid_ddls ClassifyEvent ddls2 skipDMLs h2]
  · intro skipDDLs h
    unfold generateBinlogEventRule
    obtain ⟨e, he⟩ := ddlLoop_invalid ClassifyEvent skipDDLs
      { SchemaPattern := "", TablePattern := "", Events := [], SQLPattern := [] } h
    exact ⟨e, by rw [he]⟩

/-- Witness of C27: the same skip-DML entry with two different lists of valid
skip-DDL entries, and the rule returned for it. -/
theorem generate_ignores_skip_ddls_witness :
    generateBinlogEventRule
        (fun s => if s = "insert" ∨ s = "update" ∨ s = "delete" then "dml" else "ddl")
        ["create table", "drop table"] [{ Schema := "a", Table := "t1", Type_ := "insert" }]
      = generateBinlogEventRule
        (fun s => if s = "insert" ∨ s = "update" ∨ s = "delete" then "dml" else "ddl")
        [] [{ Schema := "a", Table := "t1", Type_ := "insert" }] ∧
    ∀ r ∈ [BinlogEventRule.mk "a" "t1" ["insert"] []], r.SQLPattern = [] :=
  ⟨(generate_ignores_skip_ddls
      (fun s => if s = "insert" ∨ s = "update" ∨ s = "delete" then "dml" else "ddl")
      [{ Schema := "a", Table := "t1", Type_ := "insert" }]).2.1
      ["create table", "drop table"] [] (by decide) (by decide),
   (generate_ignores_skip_ddls
      (fun s => if s = "insert" ∨ s = "update" ∨ s = "delete" then "dml" else "ddl")
      [{ Schema := "a", Table := "t1", Type_ := "insert" }]).1
      ["create table", "drop table"] _ (by decide)⟩

end DmSyncer
